import Mathlib

/-!
Verification development for the ztunnel inbound data-plane core
(film42/ztunnel).  The Rust sources under `src/proxy/inbound.rs`,
`src/state/workload.rs` and `src/xds.rs` are shallowly embedded as
executable Lean definitions: Rust `String` becomes `List Char`,
`HashMap` becomes an association list with replace-on-insert semantics,
fallible Rust code returns `Option`/`Except`, and a Rust `panic!`
(from `.unwrap()` on an `Err`) is modelled as the `Except.error` case.
Components whose sources are not part of the four embedded files
(the service store, the demand proxy state, the RBAC evaluator and the
identity type) are modelled from the specification; their doc comments
say so explicitly.
-/

namespace Ztunnel

/-- Rust strings are embedded as lists of characters. -/
abbrev Str := List Char

instance {ε α : Type} [DecidableEq ε] [DecidableEq α] : DecidableEq (Except ε α) :=
  fun x y =>
    match x, y with
    | .ok a, .ok b =>
      if h : a = b then .isTrue (h ▸ rfl) else .isFalse (fun hc => h (Except.ok.inj hc))
    | .error e, .error f =>
      if h : e = f then .isTrue (h ▸ rfl) else .isFalse (fun hc => h (Except.error.inj hc))
    | .ok _, .error _ => .isFalse (fun hc => Except.noConfusion hc)
    | .error _, .ok _ => .isFalse (fun hc => Except.noConfusion hc)

/-- Model of Rust `str::split_once`: split at the first occurrence of `c`,
returning the part before and the part after, or `none` if `c` does not occur. -/
def splitOnce (c : Char) : Str → Option (Str × Str)
  | [] => none
  | a :: rest =>
    if a = c then some ([], rest)
    else (splitOnce c rest).map (fun p => (a :: p.1, p.2))

theorem splitOnce_eq_none {c : Char} {s : Str} (h : c ∉ s) : splitOnce c s = none := by
  induction s with
  | nil => rfl
  | cons a rest ih =>
    simp only [List.mem_cons, not_or] at h
    simp [splitOnce, Ne.symm h.1, ih h.2]

theorem splitOnce_append {c : Char} {a b : Str} (h : c ∉ a) :
    splitOnce c (a ++ c :: b) = some (a, b) := by
  induction a with
  | nil => simp [splitOnce]
  | cons x rest ih =>
    simp only [List.mem_cons, not_or] at h
    simp [splitOnce, Ne.symm h.1, ih h.2]

/-! ### Decimal and hexadecimal numerals

Executable little-endian digit extraction (`Nat.digits` in Mathlib is
defined by well-founded recursion and does not reduce in the kernel, so
we use a fuel-based equivalent and bridge the two). -/

/-- Fuel-based little-endian digits of `n` in base `b`. -/
def digitsRevAux (b : Nat) : Nat → Nat → List Nat
  | 0, _ => []
  | _ + 1, 0 => []
  | fuel + 1, n + 1 => ((n + 1) % b) :: digitsRevAux b fuel ((n + 1) / b)

/-- Executable little-endian base-`b` digits of `n` (agrees with `Nat.digits`
for bases of at least two). -/
def digitsLE (b n : Nat) : List Nat := digitsRevAux b n n

theorem digitsRevAux_eq_digits {b : Nat} (hb : 2 ≤ b) :
    ∀ fuel n, n ≤ fuel → digitsRevAux b fuel n = Nat.digits b n := by
  intro fuel
  induction fuel with
  | zero =>
    intro n hn
    interval_cases n
    simp [digitsRevAux]
  | succ f ih =>
    intro n hn
    match n with
    | 0 => simp [digitsRevAux]
    | m + 1 =>
      have hdiv : (m + 1) / b ≤ m := by
        have h2 : (m + 1) / b ≤ (m + 1) / 2 := Nat.div_le_div_left hb (by omega)
        omega
      rw [digitsRevAux, ih _ (by omega), Nat.digits_def' (by omega) (Nat.succ_pos m)]

theorem digitsLE_eq_digits {b : Nat} (hb : 2 ≤ b) (n : Nat) :
    digitsLE b n = Nat.digits b n :=
  digitsRevAux_eq_digits hb n n le_rfl

/-- Character for a single decimal digit (Rust formats digits with ASCII 0-9). -/
def digitToChar (d : Nat) : Char := Char.ofNat (48 + d)

/-- Character for a single hexadecimal digit, lowercase, as Rust's x-formatting emits. -/
def hexDigitToChar (d : Nat) : Char :=
  if d < 10 then Char.ofNat (48 + d) else Char.ofNat (87 + d)

/-- Decimal rendering of a natural number, as Rust `Display` for integers. -/
def decFmt (n : Nat) : Str :=
  if n = 0 then ['0'] else (digitsLE 10 n).reverse.map digitToChar

/-- Lowercase hexadecimal rendering of a natural number, as Rust x-formatting. -/
def hexFmt (n : Nat) : Str :=
  if n = 0 then ['0'] else (digitsLE 16 n).reverse.map hexDigitToChar

/-- Value of a decimal digit character, or `none`. -/
def decDigitVal (c : Char) : Option Nat :=
  if '0' ≤ c ∧ c ≤ '9' then some (c.toNat - 48) else none

/-- Value of a hexadecimal digit character (either case), or `none`. -/
def hexDigitVal (c : Char) : Option Nat :=
  if '0' ≤ c ∧ c ≤ '9' then some (c.toNat - 48)
  else if 'a' ≤ c ∧ c ≤ 'f' then some (c.toNat - 87)
  else if 'A' ≤ c ∧ c ≤ 'F' then some (c.toNat - 55)
  else none

/-- Read a numeral most-significant digit first, failing on any non-digit,
as Rust's char-by-char `read_number`. -/
def foldDigits (base : Nat) (dig : Char → Option Nat) (s : Str) : Option Nat :=
  s.foldl (fun acc c => acc.bind (fun a => (dig c).map (fun d => base * a + d))) (some 0)

theorem foldDigits_map_go {base : Nat} {dig : Char → Option Nat} {f : Nat → Char}
    (ds : List Nat) (hf : ∀ d ∈ ds, dig (f d) = some d) (init : Nat) :
    (ds.map f).foldl
        (fun acc c => acc.bind (fun a => (dig c).map (fun d => base * a + d)))
        (some init)
      = some (ds.foldl (fun a d => base * a + d) init) := by
  induction ds generalizing init with
  | nil => rfl
  | cons d rest ih =>
    have hd := hf d (by simp)
    simp only [List.map_cons, List.foldl_cons, Option.bind_some, hd, Option.map_some]
    exact ih (fun x hx => hf x (by simp [hx])) _

theorem foldDigits_map {base : Nat} {dig : Char → Option Nat} {f : Nat → Char}
    (ds : List Nat) (hf : ∀ d ∈ ds, dig (f d) = some d) :
    foldDigits base dig (ds.map f) = some (ds.foldl (fun a d => base * a + d) 0) :=
  foldDigits_map_go ds hf 0

theorem foldl_reverse_ofDigits (b : Nat) (l : List Nat) :
    l.reverse.foldl (fun a d => b * a + d) 0 = Nat.ofDigits b l := by
  induction l with
  | nil => rfl
  | cons d rest ih =>
    rw [List.reverse_cons, List.foldl_append, ih, Nat.ofDigits_cons]
    simp [Nat.mul_comm]
    omega

theorem decDigitVal_digitToChar {d : Nat} (hd : d < 10) :
    decDigitVal (digitToChar d) = some d := by
  revert d hd
  decide

theorem hexDigitVal_hexDigitToChar {d : Nat} (hd : d < 16) :
    hexDigitVal (hexDigitToChar d) = some d := by
  revert d hd
  decide

theorem digitToChar_not_special {d : Nat} (hd : d < 10) :
    digitToChar d ≠ '.' ∧ digitToChar d ≠ ':' ∧ digitToChar d ≠ '/' ∧ digitToChar d ≠ '[' := by
  revert d hd
  decide

theorem hexDigitToChar_not_special {d : Nat} (hd : d < 16) :
    hexDigitToChar d ≠ '.' ∧ hexDigitToChar d ≠ ':' ∧ hexDigitToChar d ≠ '/' ∧
      hexDigitToChar d ≠ '[' := by
  revert d hd
  decide

theorem decFmt_roundtrip {n : Nat} :
    foldDigits 10 decDigitVal (decFmt n) = some n := by
  by_cases h0 : n = 0
  · subst h0
    decide
  · rw [decFmt, if_neg h0, digitsLE_eq_digits (by omega)]
    rw [foldDigits_map]
    · rw [foldl_reverse_ofDigits, Nat.ofDigits_digits]
    · intro d hd
      rw [List.mem_reverse] at hd
      exact decDigitVal_digitToChar (Nat.digits_lt_base (by omega) hd)

theorem hexFmt_roundtrip {n : Nat} :
    foldDigits 16 hexDigitVal (hexFmt n) = some n := by
  by_cases h0 : n = 0
  · subst h0
    decide
  · rw [hexFmt, if_neg h0, digitsLE_eq_digits (by omega)]
    rw [foldDigits_map]
    · rw [foldl_reverse_ofDigits, Nat.ofDigits_digits]
    · intro d hd
      rw [List.mem_reverse] at hd
      exact hexDigitVal_hexDigitToChar (Nat.digits_lt_base (by omega) hd)

theorem decFmt_ne_nil {n : Nat} : decFmt n ≠ [] := by
  by_cases h0 : n = 0
  · subst h0
    decide
  · rw [decFmt, if_neg h0]
    have : Nat.digits 10 n ≠ [] := Nat.digits_ne_nil_iff_ne_zero.mpr h0
    rw [digitsLE_eq_digits (by omega)]
    simp [this]

theorem hexFmt_ne_nil {n : Nat} : hexFmt n ≠ [] := by
  by_cases h0 : n = 0
  · subst h0
    decide
  · rw [hexFmt, if_neg h0]
    have : Nat.digits 16 n ≠ [] := Nat.digits_ne_nil_iff_ne_zero.mpr h0
    rw [digitsLE_eq_digits (by omega)]
    simp [this]

theorem decFmt_not_special {n : Nat} {c : Char} (hc : c ∈ decFmt n) :
    c ≠ '.' ∧ c ≠ ':' ∧ c ≠ '/' ∧ c ≠ '[' := by
  by_cases h0 : n = 0
  · subst h0
    rw [show decFmt 0 = ['0'] from rfl, List.mem_singleton] at hc
    subst hc
    decide
  · rw [decFmt, if_neg h0, digitsLE_eq_digits (by omega)] at hc
    simp only [List.mem_map, List.mem_reverse] at hc
    obtain ⟨d, hd, rfl⟩ := hc
    exact digitToChar_not_special (Nat.digits_lt_base (by omega) hd)

theorem hexFmt_not_special {n : Nat} {c : Char} (hc : c ∈ hexFmt n) :
    c ≠ '.' ∧ c ≠ ':' ∧ c ≠ '/' ∧ c ≠ '[' := by
  by_cases h0 : n = 0
  · subst h0
    rw [show hexFmt 0 = ['0'] from rfl, List.mem_singleton] at hc
    subst hc
    decide
  · rw [hexFmt, if_neg h0, digitsLE_eq_digits (by omega)] at hc
    simp only [List.mem_map, List.mem_reverse] at hc
    obtain ⟨d, hd, rfl⟩ := hc
    exact hexDigitToChar_not_special (Nat.digits_lt_base (by omega) hd)

theorem decFmt_length_le {n : Nat} (hn : n ≤ 255) : (decFmt n).length ≤ 3 := by
  by_cases h0 : n = 0
  · subst h0
    decide
  · rw [decFmt, if_neg h0, digitsLE_eq_digits (by omega)]
    simp only [List.length_map, List.length_reverse]
    by_contra hlen
    have h4 : 4 ≤ (Nat.digits 10 n).length := by omega
    have := Nat.base_pow_length_digits_le 10 n (by omega) h0
    have hpow : (10 : Nat) ^ 4 ≤ 10 ^ (Nat.digits 10 n).length :=
      Nat.pow_le_pow_right (by omega) h4
    omega

theorem hexFmt_length_le {n : Nat} (hn : n < 65536) : (hexFmt n).length ≤ 4 := by
  by_cases h0 : n = 0
  · subst h0
    decide
  · rw [hexFmt, if_neg h0, digitsLE_eq_digits (by omega)]
    simp only [List.length_map, List.length_reverse]
    by_contra hlen
    have h5 : 5 ≤ (Nat.digits 16 n).length := by omega
    have := Nat.base_pow_length_digits_le 16 n (by omega) h0
    have hpow : (16 : Nat) ^ 5 ≤ 16 ^ (Nat.digits 16 n).length :=
      Nat.pow_le_pow_right (by omega) h5
    omega

theorem decFmt_head_ne_zero {n : Nat} (h0 : n ≠ 0) :
    (decFmt n).head? ≠ some '0' := by
  rw [decFmt, if_neg h0, digitsLE_eq_digits (by omega)]
  have hnil : Nat.digits 10 n ≠ [] := Nat.digits_ne_nil_iff_ne_zero.mpr h0
  rw [List.head?_map, List.head?_reverse]
  rw [List.getLast?_eq_getLast _ hnil]
  have hlast := Nat.getLast_digit_ne_zero 10 h0
  have hlt : (Nat.digits 10 n).getLast hnil < 10 :=
    Nat.digits_lt_base (by omega) (List.getLast_mem hnil)
  intro hcontra
  have hcontra2 : digitToChar ((Nat.digits 10 n).getLast hnil) = '0' := by
    simpa using hcontra
  have : (Nat.digits 10 n).getLast hnil = 0 := by
    revert hcontra2
    generalize (Nat.digits 10 n).getLast hnil = d at hlt ⊢
    revert d hlt
    decide
  exact hlast this

/-! ### IPv4 addresses

Model of Rust `std::net::Ipv4Addr` display and parsing, as used by the
repository through `IpAddr::from_str` and `Display`. -/

/-- An IPv4 address as four octets. -/
structure Ip4 where
  a : Nat
  b : Nat
  c : Nat
  d : Nat
deriving DecidableEq

/-- Validity of an `Ip4`: all four octets are bytes. -/
def Ip4.valid (x : Ip4) : Prop := x.a < 256 ∧ x.b < 256 ∧ x.c < 256 ∧ x.d < 256

instance (x : Ip4) : Decidable x.valid := by
  unfold Ip4.valid
  infer_instance

/-- Parse one dotted-quad octet: one to three decimal digits, no leading zero,
value at most 255 (Rust `Parser::read_number` with radix 10). -/
def decParseOctet (s : Str) : Option Nat :=
  if s = [] then none
  else if 3 < s.length then none
  else if 1 < s.length ∧ s.head? = some '0' then none
  else match foldDigits 10 decDigitVal s with
    | none => none
    | some n => if n ≤ 255 then some n else none

/-- Parse a port number: decimal digits with value below 2^16
(leading zeros permitted, as Rust's port parser). -/
def portParse (s : Str) : Option Nat :=
  if s = [] then none
  else (foldDigits 10 decDigitVal s).bind (fun n => if n < 65536 then some n else none)

/-- Parse one IPv6 hextet: one to four hexadecimal digits of either case. -/
def hexGroupParse (s : Str) : Option Nat :=
  if s = [] then none
  else if 4 < s.length then none
  else foldDigits 16 hexDigitVal s

/-- Display for `Ipv4Addr`: dotted decimal. -/
def ip4Fmt (x : Ip4) : Str :=
  List.intercalate ['.'] [decFmt x.a, decFmt x.b, decFmt x.c, decFmt x.d]

/-- Parse for `Ipv4Addr`: exactly four octets separated by dots. -/
def ip4Parse (s : Str) : Option Ip4 :=
  match s.splitOn '.' with
  | [pa, pb, pc, pd] => do
    let a ← decParseOctet pa
    let b ← decParseOctet pb
    let c ← decParseOctet pc
    let d ← decParseOctet pd
    pure ⟨a, b, c, d⟩
  | _ => none

theorem decParseOctet_decFmt {n : Nat} (hn : n ≤ 255) :
    decParseOctet (decFmt n) = some n := by
  rw [decParseOctet, if_neg decFmt_ne_nil, if_neg (by simpa using decFmt_length_le hn),
    if_neg ?hzero, decFmt_roundtrip]
  · simp [hn]
  case hzero =>
    rintro ⟨hlen, hhead⟩
    by_cases h0 : n = 0
    · subst h0
      simp [show decFmt 0 = ['0'] from rfl] at hlen
    · exact decFmt_head_ne_zero h0 hhead

theorem dot_not_mem_decFmt {n : Nat} : '.' ∉ decFmt n := by
  intro h
  exact (decFmt_not_special h).1 rfl

theorem ip4Parse_ip4Fmt {x : Ip4} (hx : x.valid) : ip4Parse (ip4Fmt x) = some x := by
  obtain ⟨ha, hb, hc, hd⟩ := hx
  have hsplit : (ip4Fmt x).splitOn '.' = [decFmt x.a, decFmt x.b, decFmt x.c, decFmt x.d] := by
    apply List.splitOn_intercalate
    · intro l hl
      simp only [List.mem_cons, List.not_mem_nil, or_false] at hl
      rcases hl with rfl | rfl | rfl | rfl <;> exact dot_not_mem_decFmt
    · simp
  rw [ip4Parse, hsplit]
  simp [decParseOctet_decFmt (by omega : x.a ≤ 255),
    decParseOctet_decFmt (by omega : x.b ≤ 255),
    decParseOctet_decFmt (by omega : x.c ≤ 255),
    decParseOctet_decFmt (by omega : x.d ≤ 255)]

theorem dot_mem_ip4Fmt {x : Ip4} : '.' ∈ ip4Fmt x := by
  rw [ip4Fmt]
  simp [List.intercalate, List.intersperse]

theorem mem_of_mem_intersperse {α : Type} {z y : α} {xs : List α}
    (h : y ∈ xs.intersperse z) : y = z ∨ y ∈ xs := by
  induction xs with
  | nil => simp at h
  | cons a t ih =>
    cases t with
    | nil =>
      simp only [List.intersperse_singleton, List.mem_singleton] at h
      simp [h]
    | cons b t2 =>
      rw [List.intersperse_cons_cons] at h
      rcases List.mem_cons.mp h with rfl | h2
      · simp
      · rcases List.mem_cons.mp h2 with rfl | h3
        · simp
        · rcases ih h3 with h4 | h4
          · exact Or.inl h4
          · exact Or.inr (List.mem_cons_of_mem _ h4)

theorem not_mem_intercalate {c : Char} {sep : Str} {parts : List Str}
    (hsep : c ∉ sep) (hparts : ∀ p ∈ parts, c ∉ p) :
    c ∉ List.intercalate sep parts := by
  intro h
  simp only [List.intercalate, List.mem_flatten] at h
  obtain ⟨l, hl, hcl⟩ := h
  rcases mem_of_mem_intersperse hl with rfl | hl2
  · exact hsep hcl
  · exact hparts l hl2 hcl

theorem colon_not_mem_ip4Fmt {x : Ip4} : ':' ∉ ip4Fmt x := by
  rw [ip4Fmt]
  apply not_mem_intercalate (by decide)
  intro p hp
  simp only [List.mem_cons, List.not_mem_nil, or_false] at hp
  rcases hp with rfl | rfl | rfl | rfl <;>
    exact fun h => (decFmt_not_special h).2.1 rfl

/-- A string containing a character on which every decimal digit test fails
cannot fold to a number. -/
theorem foldDigits_none_of_bad {base : Nat} {dig : Char → Option Nat} {s : Str} {c : Char}
    (hc : c ∈ s) (hbad : dig c = none) : foldDigits base dig s = none := by
  have go : ∀ (t : Str) (acc : Option Nat), c ∈ t →
      t.foldl (fun acc ch => acc.bind (fun a => (dig ch).map (fun d => base * a + d))) acc
        = none := by
    intro t
    induction t with
    | nil => intro acc h; simp at h
    | cons x rest ih =>
      intro acc hmem
      rcases List.mem_cons.mp hmem with rfl | hmem2
      · simp only [List.foldl_cons, hbad]
        have : ∀ (l : Str), l.foldl
            (fun acc ch => acc.bind (fun a => (dig ch).map (fun d => base * a + d)))
            (Option.bind acc fun a => Option.map (fun d => base * a + d) none) = none := by
          intro l
          have hnone : (Option.bind acc fun a => Option.map (fun d => base * a + d) none)
              = none := by cases acc <;> rfl
          rw [hnone]
          induction l with
          | nil => rfl
          | cons y ys ihy => simpa using ihy
        exact this rest
      · exact ih _ hmem2
  exact go s (some 0) hc

theorem decParseOctet_none_of_colon {s : Str} (hc : ':' ∈ s) : decParseOctet s = none := by
  rw [decParseOctet]
  have hbad : decDigitVal ':' = none := by decide
  split
  · rfl
  · split
    · rfl
    · split
      · rfl
      · rw [foldDigits_none_of_bad hc hbad]

/-- Any non-separator character of a string lies in one of its splitOn parts. -/
theorem mem_part_of_splitOn (sep : Char) {s : Str} {c : Char} (hc : c ∈ s) (hne : c ≠ sep) :
    ∃ p ∈ s.splitOn sep, c ∈ p := by
  have hs : s = [sep].intercalate (s.splitOn sep) := (List.intercalate_splitOn s sep).symm
  rw [hs] at hc
  simp only [List.intercalate, List.mem_flatten] at hc
  obtain ⟨l, hl, hcl⟩ := hc
  rcases mem_of_mem_intersperse hl with rfl | hl2
  · simp only [List.mem_singleton] at hcl
    exact absurd hcl hne
  · exact ⟨l, hl2, hcl⟩

/-- IPv4 parsing fails on any string containing a colon. -/
theorem ip4Parse_none_of_colon {s : Str} (hc : ':' ∈ s) : ip4Parse s = none := by
  obtain ⟨p, hp, hcp⟩ := mem_part_of_splitOn '.' hc (by decide)
  rw [ip4Parse]
  split
  · next pa pb pc pd heq =>
    rw [heq] at hp
    simp only [List.mem_cons, List.not_mem_nil, or_false] at hp
    rcases hp with rfl | rfl | rfl | rfl <;>
      simp [decParseOctet_none_of_colon hcp]
  · rfl

/-! ### IPv6 addresses

Model of Rust `std::net::Ipv6Addr` display (RFC 5952 zero-run compression,
IPv4-mapped special form) and of the std parser (optional `::` gap,
optional trailing dotted quad). An address is its list of eight 16-bit
segments, most significant first. -/

/-- A run of zero segments, as in the Rust `Display` implementation. -/
structure Span where
  start : Nat
  len : Nat
deriving DecidableEq

/-- The fold from Rust's `Ipv6Addr` display that finds the longest run of
zero segments (`true` entries), keeping the earliest on ties. -/
def lzrGo : List Bool → Nat → Span → Span → Span
  | [], _, _, longest => longest
  | z :: rest, i, current, longest =>
    if z then
      let cur2 : Span := if current.len = 0 then ⟨i, 1⟩ else ⟨current.start, current.len + 1⟩
      let lg2 : Span := if longest.len < cur2.len then cur2 else longest
      lzrGo rest (i + 1) cur2 lg2
    else
      lzrGo rest (i + 1) ⟨0, 0⟩ longest

/-- The longest zero-segment run of an address. -/
def zeroSpan (segs : List Nat) : Span :=
  lzrGo (segs.map (fun s => s == 0)) 0 ⟨0, 0⟩ ⟨0, 0⟩

/-- Rust `Ipv6Addr::to_ipv4_mapped`: recognizes `::ffff:a.b.c.d` addresses. -/
def ip6ToV4Mapped (segs : List Nat) : Option Ip4 :=
  match segs with
  | [a0, a1, a2, a3, a4, a5, a6, a7] =>
    if a0 = 0 ∧ a1 = 0 ∧ a2 = 0 ∧ a3 = 0 ∧ a4 = 0 ∧ a5 = 65535 then
      some ⟨a6 / 256, a6 % 256, a7 / 256, a7 % 256⟩
    else none
  | _ => none

/-- Colon-separated lowercase hex rendering of a list of segments. -/
def hexGroupsFmt (gs : List Nat) : Str := List.intercalate [':'] (gs.map hexFmt)

/-- Display for `Ipv6Addr`: IPv4-mapped special case, else zero-run compression
when the longest zero run has length at least two, else all eight groups. -/
def ip6Fmt (segs : List Nat) : Str :=
  match ip6ToV4Mapped segs with
  | some v4 => ':' :: ':' :: 'f' :: 'f' :: 'f' :: 'f' :: ':' :: ip4Fmt v4
  | none =>
    let sp := zeroSpan segs
    if 1 < sp.len then
      hexGroupsFmt (segs.take sp.start) ++
        ':' :: ':' :: hexGroupsFmt (segs.drop (sp.start + sp.len))
    else hexGroupsFmt segs

/-- Split a string at its first `::` occurrence. -/
def splitOnceDC : Str → Option (Str × Str)
  | [] => none
  | c :: rest =>
    if c = ':' ∧ rest.head? = some ':' then some ([], rest.tail)
    else (splitOnceDC rest).map (fun p => (c :: p.1, p.2))

/-- Parse the groups before a `::`: colon-separated hextets (no dotted quad
may appear before the gap; Rust rejects it there). -/
def headGroupsParse (s : Str) : Option (List Nat) :=
  if s = [] then some [] else (s.splitOn ':').mapM hexGroupParse

/-- Parse a run of groups that may end in a dotted quad (which counts as two
groups), as Rust's `read_groups`. -/
def tailGroupsParse (s : Str) : Option (List Nat) :=
  if s = [] then some []
  else
    match (s.splitOn ':').reverse with
    | [] => none
    | lastPart :: initRev => do
      let gs ← initRev.reverse.mapM hexGroupParse
      if '.' ∈ lastPart then
        match ip4Parse lastPart with
        | some x => some (gs ++ [x.a * 256 + x.b, x.c * 256 + x.d])
        | none => none
      else
        match hexGroupParse lastPart with
        | some g => some (gs ++ [g])
        | none => none

/-- Parse for `Ipv6Addr`: either eight groups, or a `::` gap standing for at
least one zero group. -/
def ip6Parse (s : Str) : Option (List Nat) :=
  match splitOnceDC s with
  | some (a, b) => do
    let heads ← headGroupsParse a
    let tails ← tailGroupsParse b
    if heads.length + tails.length ≤ 7 then
      some (heads ++ List.replicate (8 - heads.length - tails.length) 0 ++ tails)
    else none
  | none => do
    let gs ← tailGroupsParse s
    if gs.length = 8 then some gs else none

/-- An IP address: the Rust `IpAddr` sum. -/
inductive Ip where
  | v4 (x : Ip4)
  | v6 (segs : List Nat)
deriving DecidableEq

/-- Validity: four octets, or eight 16-bit segments. -/
def Ip.valid : Ip → Prop
  | .v4 x => x.valid
  | .v6 segs => segs.length = 8 ∧ ∀ s ∈ segs, s < 65536

instance : (i : Ip) → Decidable i.valid
  | .v4 _ => by unfold Ip.valid; infer_instance
  | .v6 _ => by unfold Ip.valid; infer_instance

/-- Display for `IpAddr`. -/
def ipFmt : Ip → Str
  | .v4 x => ip4Fmt x
  | .v6 segs => ip6Fmt segs

/-- Parse for `IpAddr`: IPv4 first, then IPv6, as the Rust std parser. -/
def ipParse (s : Str) : Option Ip :=
  match ip4Parse s with
  | some x => some (.v4 x)
  | none => (ip6Parse s).map .v6

/-! ### Round-trip support lemmas for the IPv6 embedding -/

theorem intercalate_colon_nil : List.intercalate [':'] ([] : List Str) = [] := rfl

theorem intercalate_colon_single (g : Str) : List.intercalate [':'] [g] = g := by
  simp [List.intercalate]

theorem intercalate_colon_cons_cons (g h : Str) (t : List Str) :
    List.intercalate [':'] (g :: h :: t) = g ++ ':' :: List.intercalate [':'] (h :: t) := by
  simp [List.intercalate, List.intersperse_cons_cons]

theorem splitOnceDC_prepend (g s : Str) (hg : ':' ∉ g) :
    splitOnceDC (g ++ s) = (splitOnceDC s).map (fun p => (g ++ p.1, p.2)) := by
  induction g with
  | nil =>
    simp only [List.nil_append]
    cases splitOnceDC s <;> rfl
  | cons x g2 ih =>
    simp only [List.mem_cons, not_or] at hg
    rw [List.cons_append, splitOnceDC, if_neg (fun hcond => hg.1 hcond.1.symm), ih hg.2]
    cases splitOnceDC s <;> rfl

theorem splitOnceDC_none (g : Str) (hg : ':' ∉ g) : splitOnceDC g = none := by
  have h := splitOnceDC_prepend g [] hg
  simpa using h

theorem splitOnceDC_colon_cons (s : Str) (h : s.head? ≠ some ':') :
    splitOnceDC (':' :: s) = (splitOnceDC s).map (fun p => (':' :: p.1, p.2)) := by
  rw [splitOnceDC, if_neg (by simp [h])]

theorem head?_intercalate_hexGroups (g : Str) (t : List Str) (Y : Str) (hg : g ≠ []) :
    (List.intercalate [':'] (g :: t) ++ Y).head? = g.head? := by
  obtain ⟨c, g2, rfl⟩ := List.exists_cons_of_ne_nil hg
  cases t with
  | nil => rw [intercalate_colon_single]; rfl
  | cons h t2 => rw [intercalate_colon_cons_cons]; rfl

theorem splitOnceDC_groups_none (gs : List Str)
    (hne : ∀ g ∈ gs, g ≠ []) (hcolon : ∀ g ∈ gs, ':' ∉ g) :
    splitOnceDC (List.intercalate [':'] gs) = none := by
  induction gs with
  | nil => rfl
  | cons g t ih =>
    cases t with
    | nil =>
      rw [intercalate_colon_single]
      exact splitOnceDC_none g (hcolon g (by simp))
    | cons h t2 =>
      rw [intercalate_colon_cons_cons,
        splitOnceDC_prepend g _ (hcolon g (by simp))]
      have hh : (List.intercalate [':'] (h :: t2)).head? ≠ some ':' := by
        have heq := head?_intercalate_hexGroups h t2 [] (hne h (by simp))
        rw [List.append_nil] at heq
        rw [heq]
        obtain ⟨c, h2, rfl⟩ := List.exists_cons_of_ne_nil (hne h (by simp))
        have hcne : c ≠ ':' := by
          intro hc
          subst hc
          exact hcolon (':' :: h2) (by simp) (by simp)
        simp [hcne]
      rw [splitOnceDC_colon_cons _ hh,
        ih (fun x hx => hne x (by simp [hx])) (fun x hx => hcolon x (by simp [hx]))]
      rfl

theorem splitOnceDC_groups_append (gs : List Str) (Y : Str)
    (hne : ∀ g ∈ gs, g ≠ []) (hcolon : ∀ g ∈ gs, ':' ∉ g) :
    splitOnceDC (List.intercalate [':'] gs ++ ':' :: ':' :: Y) =
      some (List.intercalate [':'] gs, Y) := by
  induction gs with
  | nil =>
    rw [intercalate_colon_nil, List.nil_append, splitOnceDC, if_pos (by simp)]
    rfl
  | cons g t ih =>
    cases t with
    | nil =>
      rw [intercalate_colon_single,
        splitOnceDC_prepend g _ (hcolon g (by simp)),
        splitOnceDC, if_pos (by simp)]
      simp
    | cons h t2 =>
      rw [intercalate_colon_cons_cons, List.append_assoc, List.cons_append,
        splitOnceDC_prepend g _ (hcolon g (by simp))]
      have hh : (List.intercalate [':'] (h :: t2) ++ ':' :: ':' :: Y).head? ≠ some ':' := by
        rw [head?_intercalate_hexGroups h t2 _ (hne h (by simp))]
        obtain ⟨c, h2, rfl⟩ := List.exists_cons_of_ne_nil (hne h (by simp))
        have hcne : c ≠ ':' := by
          intro hc
          subst hc
          exact hcolon (':' :: h2) (by simp) (by simp)
        simp [hcne]
      rw [splitOnceDC_colon_cons _ hh,
        ih (fun x hx => hne x (by simp [hx])) (fun x hx => hcolon x (by simp [hx]))]
      simp [intercalate_colon_cons_cons]

theorem hexGroupParse_hexFmt {n : Nat} (hn : n < 65536) :
    hexGroupParse (hexFmt n) = some n := by
  rw [hexGroupParse, if_neg hexFmt_ne_nil, if_neg (by simpa using hexFmt_length_le hn),
    hexFmt_roundtrip]

theorem mapM_hexGroupParse_hexFmt (gs : List Nat) (h : ∀ g ∈ gs, g < 65536) :
    (gs.map hexFmt).mapM hexGroupParse = some gs := by
  induction gs with
  | nil => rfl
  | cons g t ih =>
    rw [List.map_cons, List.mapM_cons]
    rw [hexGroupParse_hexFmt (h g (by simp)), ih (fun x hx => h x (by simp [hx]))]
    rfl

theorem colon_not_mem_hexFmt {n : Nat} : ':' ∉ hexFmt n :=
  fun h => (hexFmt_not_special h).2.1 rfl

theorem dot_not_mem_hexFmt {n : Nat} : '.' ∉ hexFmt n :=
  fun h => (hexFmt_not_special h).1 rfl

theorem splitOn_hexGroupsFmt (gs : List Nat) (hne : gs ≠ []) :
    (hexGroupsFmt gs).splitOn ':' = gs.map hexFmt := by
  apply List.splitOn_intercalate
  · intro l hl
    obtain ⟨g, _, rfl⟩ := List.mem_map.mp hl
    exact colon_not_mem_hexFmt
  · simpa using hne

theorem hexGroupsFmt_ne_nil {gs : List Nat} (hne : gs ≠ []) : hexGroupsFmt gs ≠ [] := by
  obtain ⟨g, t, rfl⟩ := List.exists_cons_of_ne_nil hne
  rw [hexGroupsFmt, List.map_cons]
  cases t with
  | nil =>
    rw [List.map_nil, intercalate_colon_single]
    exact hexFmt_ne_nil
  | cons h t2 =>
    rw [List.map_cons, intercalate_colon_cons_cons]
    intro hcontra
    obtain ⟨c, g2, hg⟩ := List.exists_cons_of_ne_nil (hexFmt_ne_nil (n := g))
    rw [hg] at hcontra
    simp at hcontra

theorem headGroupsParse_hexGroupsFmt (gs : List Nat) (h : ∀ g ∈ gs, g < 65536) :
    headGroupsParse (hexGroupsFmt gs) = some gs := by
  cases gs with
  | nil => rfl
  | cons g t =>
    rw [headGroupsParse, if_neg (hexGroupsFmt_ne_nil (by simp)),
      splitOn_hexGroupsFmt _ (by simp)]
    exact mapM_hexGroupParse_hexFmt _ h

theorem tailGroupsParse_hexGroupsFmt (gs : List Nat) (h : ∀ g ∈ gs, g < 65536) :
    tailGroupsParse (hexGroupsFmt gs) = some gs := by
  rcases List.eq_nil_or_concat' gs with rfl | ⟨ini, lastg, rfl⟩
  · rfl
  · rw [tailGroupsParse, if_neg (hexGroupsFmt_ne_nil (by simp)),
      splitOn_hexGroupsFmt _ (by simp)]
    rw [List.map_append, List.map_singleton, List.reverse_append, List.reverse_singleton]
    simp only [List.singleton_append, List.reverse_reverse]
    rw [mapM_hexGroupParse_hexFmt _ (fun x hx => h x (by simp [hx]))]
    have hv := hexGroupParse_hexFmt (h lastg (by simp))
    simp [dot_not_mem_hexFmt, hv]

theorem list_length_eight {l : List Nat} (h : l.length = 8) :
    ∃ g0 g1 g2 g3 g4 g5 g6 g7, l = [g0, g1, g2, g3, g4, g5, g6, g7] := by
  rcases l with _ | ⟨g0, _ | ⟨g1, _ | ⟨g2, _ | ⟨g3, _ | ⟨g4, _ | ⟨g5, _ | ⟨g6, _ | ⟨g7, rest⟩⟩⟩⟩⟩⟩⟩⟩ <;>
    simp_all

theorem lzr8_spec (b0 b1 b2 b3 b4 b5 b6 b7 : Bool) :
    (lzrGo [b0, b1, b2, b3, b4, b5, b6, b7] 0 ⟨0, 0⟩ ⟨0, 0⟩).start
        + (lzrGo [b0, b1, b2, b3, b4, b5, b6, b7] 0 ⟨0, 0⟩ ⟨0, 0⟩).len ≤ 8 ∧
      (([b0, b1, b2, b3, b4, b5, b6, b7].drop
            (lzrGo [b0, b1, b2, b3, b4, b5, b6, b7] 0 ⟨0, 0⟩ ⟨0, 0⟩).start).take
          (lzrGo [b0, b1, b2, b3, b4, b5, b6, b7] 0 ⟨0, 0⟩ ⟨0, 0⟩).len)
        = List.replicate (lzrGo [b0, b1, b2, b3, b4, b5, b6, b7] 0 ⟨0, 0⟩ ⟨0, 0⟩).len true := by
  revert b0 b1 b2 b3 b4 b5 b6 b7
  decide

theorem map_isZero_replicate {l : List Nat} {k : Nat}
    (h : l.map (fun s => s == 0) = List.replicate k true) : l = List.replicate k 0 := by
  induction l generalizing k with
  | nil =>
    cases k with
    | zero => rfl
    | succ k2 => simp at h
  | cons s t ih =>
    cases k with
    | zero => simp at h
    | succ k2 =>
      rw [List.map_cons, List.replicate_succ] at h
      have h1 : (s == 0) = true := (List.cons.inj h).1
      have h2 : t.map (fun s => s == 0) = List.replicate k2 true := (List.cons.inj h).2
      have hs : s = 0 := by simpa using h1
      rw [List.replicate_succ, hs, ih h2]

theorem zeroSpan_spec (segs : List Nat) (hlen : segs.length = 8) :
    (zeroSpan segs).start + (zeroSpan segs).len ≤ 8 ∧
      (segs.drop (zeroSpan segs).start).take (zeroSpan segs).len
        = List.replicate (zeroSpan segs).len 0 := by
  obtain ⟨s0, s1, s2, s3, s4, s5, s6, s7, rfl⟩ := list_length_eight hlen
  have hb := lzr8_spec (s0 == 0) (s1 == 0) (s2 == 0) (s3 == 0) (s4 == 0) (s5 == 0)
    (s6 == 0) (s7 == 0)
  have hz : zeroSpan [s0, s1, s2, s3, s4, s5, s6, s7]
      = lzrGo [s0 == 0, s1 == 0, s2 == 0, s3 == 0, s4 == 0, s5 == 0, s6 == 0, s7 == 0]
          0 ⟨0, 0⟩ ⟨0, 0⟩ := rfl
  rw [hz]
  refine ⟨hb.1, ?_⟩
  apply map_isZero_replicate
  rw [List.map_take, List.map_drop]
  exact hb.2

theorem tailGroupsParse_mapped (x : Ip4) (hx : x.valid) :
    tailGroupsParse ('f' :: 'f' :: 'f' :: 'f' :: ':' :: ip4Fmt x)
      = some [65535, x.a * 256 + x.b, x.c * 256 + x.d] := by
  have hsplit : ('f' :: 'f' :: 'f' :: 'f' :: ':' :: ip4Fmt x).splitOn ':'
      = [['f', 'f', 'f', 'f'], ip4Fmt x] := by
    have heq : ('f' :: 'f' :: 'f' :: 'f' :: ':' :: ip4Fmt x)
        = List.intercalate [':'] [['f', 'f', 'f', 'f'], ip4Fmt x] := by
      rw [intercalate_colon_cons_cons, intercalate_colon_single]
      rfl
    rw [heq]
    apply List.splitOn_intercalate
    · intro l hl
      simp only [List.mem_cons, List.not_mem_nil, or_false] at hl
      rcases hl with rfl | rfl
      · decide
      · exact colon_not_mem_ip4Fmt
    · simp
  rw [tailGroupsParse, if_neg (by simp), hsplit]
  show (do
      let gs ← ([['f', 'f', 'f', 'f']] : List Str).reverse.mapM hexGroupParse
      if '.' ∈ ip4Fmt x then
        match ip4Parse (ip4Fmt x) with
        | some y => some (gs ++ [y.a * 256 + y.b, y.c * 256 + y.d])
        | none => none
      else
        match hexGroupParse (ip4Fmt x) with
        | some g => some (gs ++ [g])
        | none => none)
    = some [65535, x.a * 256 + x.b, x.c * 256 + x.d]
  rw [show ([['f', 'f', 'f', 'f']] : List Str).reverse.mapM hexGroupParse = some [65535] from by
    decide]
  show (if '.' ∈ ip4Fmt x then
      match ip4Parse (ip4Fmt x) with
      | some y => some (([65535] : List Nat) ++ [y.a * 256 + y.b, y.c * 256 + y.d])
      | none => none
    else
      match hexGroupParse (ip4Fmt x) with
      | some g => some (([65535] : List Nat) ++ [g])
      | none => none)
    = some [65535, x.a * 256 + x.b, x.c * 256 + x.d]
  rw [if_pos dot_mem_ip4Fmt, ip4Parse_ip4Fmt hx]
  rfl

theorem colon_mem_ip6Fmt (segs : List Nat) (hlen : segs.length = 8) : ':' ∈ ip6Fmt segs := by
  rw [ip6Fmt]
  cases ip6ToV4Mapped segs with
  | some x => simp
  | none =>
    by_cases hsp : 1 < (zeroSpan segs).len
    · simp [hsp]
    · simp only [hsp, if_neg, if_false]
      obtain ⟨s0, s1, s2, s3, s4, s5, s6, s7, rfl⟩ := list_length_eight hlen
      rw [hexGroupsFmt, List.map_cons, List.map_cons, intercalate_colon_cons_cons]
      simp

theorem ip6Parse_dc {s a b : Str} (h : splitOnceDC s = some (a, b)) :
    ip6Parse s = (do
      let heads ← headGroupsParse a
      let tails ← tailGroupsParse b
      if heads.length + tails.length ≤ 7 then
        some (heads ++ List.replicate (8 - heads.length - tails.length) 0 ++ tails)
      else none) := by
  rw [ip6Parse, h]

theorem ip6Parse_nodc {s : Str} (h : splitOnceDC s = none) :
    ip6Parse s = (do
      let gs ← tailGroupsParse s
      if gs.length = 8 then some gs else none) := by
  rw [ip6Parse, h]

theorem ip6Parse_ip6Fmt (segs : List Nat) (hlen : segs.length = 8)
    (hval : ∀ s ∈ segs, s < 65536) : ip6Parse (ip6Fmt segs) = some segs := by
  cases hmap : ip6ToV4Mapped segs with
  | some x =>
    have hfmt : ip6Fmt segs = ':' :: ':' :: 'f' :: 'f' :: 'f' :: 'f' :: ':' :: ip4Fmt x := by
      rw [ip6Fmt, hmap]
    obtain ⟨s0, s1, s2, s3, s4, s5, s6, s7, rfl⟩ := list_length_eight hlen
    rw [ip6ToV4Mapped] at hmap
    split_ifs at hmap with hcond
    · obtain ⟨h0, h1, h2, h3, h4, h5⟩ := hcond
      have hx : x = ⟨s6 / 256, s6 % 256, s7 / 256, s7 % 256⟩ :=
        (Option.some.inj hmap).symm
      have h6 : s6 < 65536 := hval s6 (by simp)
      have h7 : s7 < 65536 := hval s7 (by simp)
      have hxv : x.valid := by
        rw [hx]
        exact ⟨by show s6 / 256 < 256; omega, by show s6 % 256 < 256; omega,
          by show s7 / 256 < 256; omega, by show s7 % 256 < 256; omega⟩
      have ht := tailGroupsParse_mapped x hxv
      rw [hfmt]
      rw [ip6Parse_dc (show splitOnceDC (':' :: ':' :: 'f' :: 'f' :: 'f' :: 'f' :: ':' :: ip4Fmt x)
          = some ([], 'f' :: 'f' :: 'f' :: 'f' :: ':' :: ip4Fmt x) from by
        rw [splitOnceDC, if_pos (by simp)]
        rfl)]
      rw [ht, show headGroupsParse ([] : Str) = some [] from rfl]
      have hs6 : x.a * 256 + x.b = s6 := by
        rw [hx]
        show s6 / 256 * 256 + s6 % 256 = s6
        omega
      have hs7 : x.c * 256 + x.d = s7 := by
        rw [hx]
        show s7 / 256 * 256 + s7 % 256 = s7
        omega
      subst h0 h1 h2 h3 h4 h5
      show (if ([] : List Nat).length + [65535, x.a * 256 + x.b, x.c * 256 + x.d].length ≤ 7 then
          some (([] : List Nat)
            ++ List.replicate (8 - ([] : List Nat).length
                - [65535, x.a * 256 + x.b, x.c * 256 + x.d].length) 0
            ++ [65535, x.a * 256 + x.b, x.c * 256 + x.d])
        else none)
        = some [0, 0, 0, 0, 0, 65535, s6, s7]
      rw [if_pos (by simp), hs6, hs7]
      rfl
  | none =>
    by_cases hsp : 1 < (zeroSpan segs).len
    · have hfmt : ip6Fmt segs
          = hexGroupsFmt (segs.take (zeroSpan segs).start) ++ ':' :: ':' ::
              hexGroupsFmt (segs.drop ((zeroSpan segs).start + (zeroSpan segs).len)) := by
        rw [ip6Fmt, hmap]
        simp [hsp]
      have hspec := zeroSpan_spec segs hlen
      have hblen : (segs.take (zeroSpan segs).start).length = (zeroSpan segs).start := by
        rw [List.length_take, hlen]
        omega
      have halen : (segs.drop ((zeroSpan segs).start + (zeroSpan segs).len)).length
          = 8 - ((zeroSpan segs).start + (zeroSpan segs).len) := by
        rw [List.length_drop, hlen]
      have hsplitdc : splitOnceDC (ip6Fmt segs)
          = some (hexGroupsFmt (segs.take (zeroSpan segs).start),
              hexGroupsFmt (segs.drop ((zeroSpan segs).start + (zeroSpan segs).len))) := by
        rw [hfmt, hexGroupsFmt, hexGroupsFmt]
        exact splitOnceDC_groups_append _ _
          (fun g hg => by
            obtain ⟨n, _, rfl⟩ := List.mem_map.mp hg
            exact hexFmt_ne_nil)
          (fun g hg => by
            obtain ⟨n, _, rfl⟩ := List.mem_map.mp hg
            exact colon_not_mem_hexFmt)
      rw [ip6Parse_dc hsplitdc]
      rw [headGroupsParse_hexGroupsFmt _
        (fun g hg => hval g (List.mem_of_mem_take hg))]
      rw [tailGroupsParse_hexGroupsFmt _
        (fun g hg => hval g (List.mem_of_mem_drop hg))]
      have hcount : (segs.take (zeroSpan segs).start).length
          + (segs.drop ((zeroSpan segs).start + (zeroSpan segs).len)).length ≤ 7 := by
        rw [hblen, halen]
        omega
      have hfill : 8 - (segs.take (zeroSpan segs).start).length
          - (segs.drop ((zeroSpan segs).start + (zeroSpan segs).len)).length
          = (zeroSpan segs).len := by
        rw [hblen, halen]
        omega
      show (if (segs.take (zeroSpan segs).start).length
            + (segs.drop ((zeroSpan segs).start + (zeroSpan segs).len)).length ≤ 7 then
          some (segs.take (zeroSpan segs).start
            ++ List.replicate (8 - (segs.take (zeroSpan segs).start).length
                - (segs.drop ((zeroSpan segs).start + (zeroSpan segs).len)).length) 0
            ++ segs.drop ((zeroSpan segs).start + (zeroSpan segs).len))
        else none)
        = some segs
      rw [if_pos hcount, hfill]
      have hdecomp : segs.take (zeroSpan segs).start
          ++ (List.replicate (zeroSpan segs).len 0
          ++ segs.drop ((zeroSpan segs).start + (zeroSpan segs).len)) = segs := by
        rw [← hspec.2, List.drop_take_append_drop, List.take_append_drop]
      rw [← List.append_assoc] at hdecomp
      rw [hdecomp]
    · have hfmt : ip6Fmt segs = hexGroupsFmt segs := by
        rw [ip6Fmt, hmap]
        simp [hsp]
      have hsplitdc : splitOnceDC (ip6Fmt segs) = none := by
        rw [hfmt, hexGroupsFmt]
        exact splitOnceDC_groups_none _
          (fun g hg => by
            obtain ⟨n, _, rfl⟩ := List.mem_map.mp hg
            exact hexFmt_ne_nil)
          (fun g hg => by
            obtain ⟨n, _, rfl⟩ := List.mem_map.mp hg
            exact colon_not_mem_hexFmt)
      rw [ip6Parse_nodc hsplitdc, hfmt, tailGroupsParse_hexGroupsFmt segs hval]
      show (if segs.length = 8 then some segs else none) = some segs
      rw [if_pos hlen]

/-- Model of the round trip `IpAddr::from_str(format(ip)) = Ok(ip)` of the std
library for every valid IPv4 and IPv6 address. -/
theorem ipParse_ipFmt (ip : Ip) (h : ip.valid) : ipParse (ipFmt ip) = some ip := by
  cases ip with
  | v4 x =>
    rw [ipFmt, ipParse, ip4Parse_ip4Fmt h]
  | v6 segs =>
    obtain ⟨hlen, hval⟩ := h
    rw [ipFmt, ipParse, ip4Parse_none_of_colon (colon_mem_ip6Fmt segs hlen),
      ip6Parse_ip6Fmt segs hlen hval]
    rfl

/-! ### Socket addresses

Model of Rust `SocketAddr` parsing, used by `serve_connect` on the CONNECT
authority (`IP:port`, with IPv6 hosts in brackets). -/

/-- A socket address: IP and port. -/
structure SockAddr where
  ip : Ip
  port : Nat
deriving DecidableEq

/-- Parse for `SocketAddr`: `v4:port` or `[v6]:port`. -/
def sockAddrParse (s : Str) : Option SockAddr :=
  match s with
  | '[' :: rest =>
    match splitOnce ']' rest with
    | some (ipstr, ':' :: portstr) => do
      let segs ← ip6Parse ipstr
      let p ← portParse portstr
      some ⟨.v6 segs, p⟩
    | _ => none
  | _ =>
    match splitOnce ':' s with
    | some (ipstr, portstr) => do
      let x ← ip4Parse ipstr
      let p ← portParse portstr
      some ⟨.v4 x, p⟩
    | none => none

/-! ### Data model of `src/state/workload.rs`

Field names follow the Rust structs, except that the Rust field
`namespace` is rendered `ns` because `namespace` is a Lean keyword. -/

/-- The error enum `WorkloadError` (the `PrefixParse` variant, unused by the
embedded code paths, is omitted). -/
inductive WorkloadError where
  | AddressParse
  | ByteAddressParse (n : Nat)
  | EnumParse (msg : Str)
  | MissingGatewayAddress
deriving DecidableEq

/-- A network-qualified address: the pair (network name, IP). -/
structure NetworkAddress where
  network : Str
  address : Ip
deriving DecidableEq

/-- The `network_addr` constructor function. -/
def network_addr (network : Str) (vip : Ip) : NetworkAddress :=
  { network := network, address := vip }

/-- Display for `NetworkAddress`: `network/IP`. -/
def networkAddressFmt (na : NetworkAddress) : Str :=
  na.network ++ '/' :: ipFmt na.address

/-- Deserialize for `NetworkAddress`: split at the first slash, then parse
the remainder as an IP. -/
def networkAddressParse (s : Str) : Option NetworkAddress :=
  match splitOnce '/' s with
  | none => none
  | some (network, rest) => (ipParse rest).map (fun ip => ⟨network, ip⟩)

/-- A namespaced hostname, the secondary service key. -/
structure NamespacedHostname where
  ns : Str
  hostname : Str
deriving DecidableEq

/-- The SPIFFE identity triple. Modelled from the spec: the `Identity` type
lives in `src/identity.rs`, which is not among the embedded sources; the spec
defines it as the triple (trust-domain, namespace, service-account) rendered
as a SPIFFE URI. -/
structure Identity where
  trust_domain : Str
  ns : Str
  service_account : Str
deriving DecidableEq

/-- Modelled from the spec: the SPIFFE URI form
`spiffe://trust-domain/ns/namespace/sa/service-account` of an identity. -/
def Identity.spiffe (i : Identity) : Str :=
  ("spiffe://").toList ++ i.trust_domain ++ ("/ns/").toList ++ i.ns
    ++ ("/sa/").toList ++ i.service_account

/-- The `gatewayaddress::Destination` sum. -/
inductive GwDestination where
  | Address (a : NetworkAddress)
  | Hostname (h : NamespacedHostname)
deriving DecidableEq

/-- A gateway address: destination plus port. -/
structure GatewayAddress where
  destination : GwDestination
  port : Nat
deriving DecidableEq

/-- The tunnel protocol tag. -/
inductive Protocol where
  | TCP
  | HBONE
deriving DecidableEq

/-- Workload health state. -/
inductive HealthStatus where
  | Healthy
  | Unhealthy
deriving DecidableEq

/-- The `Workload` record of `src/state/workload.rs`. -/
structure Workload where
  workload_ips : List Ip
  waypoint : Option GatewayAddress
  network_gateway : Option GatewayAddress
  gateway_address : Option SockAddr
  protocol : Protocol
  uid : Str
  name : Str
  ns : Str
  trust_domain : Str
  service_account : Str
  network : Str
  workload_name : Str
  workload_type : Str
  canonical_name : Str
  canonical_revision : Str
  node : Str
  native_tunnel : Bool
  authorization_policies : List Str
  status : HealthStatus
  cluster_id : Str
deriving DecidableEq

/-- The `Workload::identity` method: the SPIFFE triple of the workload. -/
def Workload.identity (w : Workload) : Identity :=
  { trust_domain := w.trust_domain, ns := w.ns, service_account := w.service_account }

/-- The `byte_to_ip` conversion: 4 bytes to IPv4, 16 bytes to IPv6 (paired
big-endian into segments), anything else is a `ByteAddressParse` error
carrying the byte count. -/
def byteToIp (b : List Nat) : Except WorkloadError Ip :=
  if b.length = 4 then
    .ok (.v4 ⟨b.getD 0 0, b.getD 1 0, b.getD 2 0, b.getD 3 0⟩)
  else if b.length = 16 then
    .ok (.v6 (pairSegs b))
  else .error (.ByteAddressParse b.length)
where
  /-- Group bytes into big-endian 16-bit segments. -/
  pairSegs : List Nat → List Nat
    | hi :: lo :: rest => (hi * 256 + lo) :: pairSegs rest
    | _ => []

/-! ### The XDS resource model (protobuf messages of `xds::istio::workload`) -/

/-- The protobuf `NetworkAddress` message: network plus raw address bytes. -/
structure XdsNetworkAddress where
  network : Str
  address : List Nat
deriving DecidableEq

/-- The protobuf `NamespacedHostname` message. -/
structure XdsNamespacedHostname where
  ns : Str
  hostname : Str
deriving DecidableEq

/-- The protobuf `gateway_address::Destination` oneof. -/
inductive XdsGwDestination where
  | Address (a : XdsNetworkAddress)
  | Hostname (h : XdsNamespacedHostname)
deriving DecidableEq

/-- The protobuf `GatewayAddress` message (destination is optional). -/
structure XdsGatewayAddress where
  destination : Option XdsGwDestination
  port : Nat
deriving DecidableEq

/-- A protobuf `PortList`: pairs of (service port, target port). -/
abbrev PortList := List (Nat × Nat)

/-- The protobuf `Workload` message, with the fields the embedded code reads.
`workload_type_lc` stands for `workload_type().as_str_name().to_lowercase()`,
the already-lowercased enum name. -/
structure XdsWorkload where
  uid : Str
  name : Str
  ns : Str
  addresses : List (List Nat)
  tunnel_protocol : Int
  trust_domain : Str
  service_account : Str
  node : Str
  network : Str
  workload_name : Str
  workload_type_lc : Str
  canonical_name : Str
  canonical_revision : Str
  status : Int
  native_tunnel : Bool
  authorization_policies : List Str
  cluster_id : Str
  waypoint : Option XdsGatewayAddress
  network_gateway : Option XdsGatewayAddress
  virtual_ips : List (Str × PortList)
deriving DecidableEq

/-- `TryFrom<Option<TunnelProtocol>> for Protocol` composed with
`TunnelProtocol::from_i32`: 0 is NONE (plain TCP), 1 is HBONE, anything
else is an unknown enum value. -/
def protocolTryFrom (i : Int) : Except WorkloadError Protocol :=
  if i = 0 then .ok .TCP
  else if i = 1 then .ok .HBONE
  else .error (.EnumParse ("unknown type").toList)

/-- `TryFrom<Option<WorkloadStatus>> for HealthStatus` composed with
`WorkloadStatus::from_i32`: 0 healthy, 1 unhealthy, else unknown. -/
def healthTryFrom (i : Int) : Except WorkloadError HealthStatus :=
  if i = 0 then .ok .Healthy
  else if i = 1 then .ok .Unhealthy
  else .error (.EnumParse ("unknown type").toList)

/-- `TryFrom<&XdsGatewayAddress> for GatewayAddress`: resolve address bytes
through `byte_to_ip`; a missing destination is an error; the port is
truncated to `u16`. -/
def gatewayAddressTryFrom (x : XdsGatewayAddress) : Except WorkloadError GatewayAddress :=
  match x.destination with
  | some (.Address addr) => do
    let ip ← byteToIp addr.address
    .ok { destination := .Address { network := addr.network, address := ip },
          port := x.port % 65536 }
  | some (.Hostname hn) =>
    .ok { destination := .Hostname { ns := hn.ns, hostname := hn.hostname },
          port := x.port % 65536 }
  | none => .error .MissingGatewayAddress

/-- Conversion of an optional gateway address, as the two `match` blocks at
the top of the Rust `TryFrom`. -/
def optGatewayTryFrom : Option XdsGatewayAddress → Except WorkloadError (Option GatewayAddress)
  | some w => Except.map some (gatewayAddressTryFrom w)
  | none => .ok none

/-- `TryFrom<&XdsWorkload> for Workload`: converts gateway addresses and raw
address bytes, parses the enums, and substitutes the defaults
`cluster.local` / `default` / `Kubernetes` for empty trust domain, service
account and cluster id. -/
def workloadTryFrom (r : XdsWorkload) : Except WorkloadError Workload :=
  optGatewayTryFrom r.waypoint >>= fun wp =>
  optGatewayTryFrom r.network_gateway >>= fun network_gw =>
  r.addresses.mapM byteToIp >>= fun addresses =>
  protocolTryFrom r.tunnel_protocol >>= fun protocol =>
  healthTryFrom r.status >>= fun status =>
  .ok {
    workload_ips := addresses,
    waypoint := wp,
    network_gateway := network_gw,
    gateway_address := none,
    protocol := protocol,
    uid := r.uid,
    name := r.name,
    ns := r.ns,
    trust_domain := if r.trust_domain = [] then ("cluster.local").toList else r.trust_domain,
    service_account := if r.service_account = [] then ("default").toList else r.service_account,
    node := r.node,
    network := r.network,
    workload_name := r.workload_name,
    workload_type := r.workload_type_lc,
    canonical_name := r.canonical_name,
    canonical_revision := r.canonical_revision,
    status := status,
    native_tunnel := r.native_tunnel,
    authorization_policies := r.authorization_policies,
    cluster_id := if r.cluster_id = [] then ("Kubernetes").toList else r.cluster_id }

/-! ### Association-list maps

Rust `HashMap`s are embedded as association lists with replace-on-insert
semantics; lookup finds the first matching key, erase removes it. -/

/-- Lookup the value at a key. -/
def mlookup {κ α : Type} [DecidableEq κ] (k : κ) : List (κ × α) → Option α
  | [] => none
  | (k2, v) :: rest => if k2 = k then some v else mlookup k rest

/-- Erase the entry at a key (first occurrence). -/
def merase {κ α : Type} [DecidableEq κ] (k : κ) : List (κ × α) → List (κ × α)
  | [] => []
  | (k2, v) :: rest => if k2 = k then rest else (k2, v) :: merase k rest

/-- Insert, replacing any previous entry at the key (Rust `HashMap::insert`). -/
def minsert {κ α : Type} [DecidableEq κ] (k : κ) (v : α) (l : List (κ × α)) : List (κ × α) :=
  (k, v) :: merase k l

/-- Update the value at a key in place, when present. -/
def mupdate {κ α : Type} [DecidableEq κ] (k : κ) (f : α → α) : List (κ × α) → List (κ × α)
  | [] => []
  | (k2, v) :: rest => if k2 = k then (k2, f v) :: rest else (k2, v) :: mupdate k f rest

/-! ### The workload store (`WorkloadStore` of `src/state/workload.rs`)

The two policy maps of the Rust struct are omitted: the operations embedded
here (`insert_workload`, `remove_workload`, `find_workload`) never touch
them. -/

/-- The workload store: the per-network-address index and the UID index. -/
structure WorkloadStore where
  workloads : List (NetworkAddress × Workload)
  workloads_by_uid : List (Str × Workload)
deriving DecidableEq

/-- The empty store (Rust `Default`). -/
def WorkloadStore.empty : WorkloadStore := ⟨[], []⟩

/-- The `remove_workload` method: remove the UID entry; if one was present,
also erase the per-address entries for each of its workload IPs, and return
the removed record. -/
def WorkloadStore.remove_workload (s : WorkloadStore) (uid : Str) :
    WorkloadStore × Option Workload :=
  match mlookup uid s.workloads_by_uid with
  | none => (s, none)
  | some prev =>
    ({ workloads :=
        prev.workload_ips.foldl (fun m ip => merase (network_addr prev.network ip) m) s.workloads,
       workloads_by_uid := merase uid s.workloads_by_uid },
     some prev)

/-- The `insert_workload` method: first remove any entry under the same UID,
then index the record under each of its IPs and under its UID. -/
def WorkloadStore.insert_workload (s : WorkloadStore) (w : Workload) : WorkloadStore :=
  let s := (s.remove_workload w.uid).1
  { workloads :=
      w.workload_ips.foldl (fun m ip => minsert (network_addr w.network ip) w m) s.workloads,
    workloads_by_uid := minsert w.uid w s.workloads_by_uid }

/-- The `find_workload` method: lookup by network address. -/
def WorkloadStore.find_workload (s : WorkloadStore) (addr : NetworkAddress) : Option Workload :=
  mlookup addr s.workloads

/-! ### The service store

Modelled from the spec: `src/state/service.rs` is not among the embedded
sources. The spec describes a service as (name, namespace, hostname, VIP
set, port map, endpoint map keyed by endpoint network address), a VIP index
from network address to service, and a staging map holding endpoints whose
parent service has not been seen (the staged-VIP algorithm of section 4.1,
with staging entries dropped when their last endpoint is removed, as the
`staged_vips_cleanup` test requires). -/

/-- An endpoint: service VIP, backing workload address, port mapping
(the `Endpoint` struct built by `service_endpoints` in `src/xds.rs`). -/
structure Endpoint where
  vip : NetworkAddress
  address : NetworkAddress
  port : PortList
deriving DecidableEq

/-- Modelled from the spec: a `Service` record. -/
structure Service where
  name : Str
  ns : Str
  hostname : Str
  vips : List NetworkAddress
  ports : PortList
  endpoints : List (NetworkAddress × Endpoint)
deriving DecidableEq

/-- The primary key of a service. -/
def Service.key (s : Service) : NamespacedHostname := { ns := s.ns, hostname := s.hostname }

/-- Modelled from the spec: the service store with its host index, VIP index
and staged-endpoint map. -/
structure ServiceStore where
  by_host : List (NamespacedHostname × Service)
  by_vip : List (NetworkAddress × NamespacedHostname)
  staged_vips : List (NetworkAddress × List (NetworkAddress × Endpoint))
deriving DecidableEq

/-- The empty service store. -/
def ServiceStore.empty : ServiceStore := ⟨[], [], []⟩

/-- Modelled from the spec: lookup a service by one of its VIPs. -/
def ServiceStore.get_by_vip (ss : ServiceStore) (vip : NetworkAddress) : Option Service :=
  (mlookup vip ss.by_vip).bind (fun h => mlookup h ss.by_host)

/-- Modelled from the spec: insert one endpoint; if a service owns the VIP it
goes into that service's endpoint map (keyed by endpoint address), otherwise
it is staged under the VIP. -/
def ServiceStore.insert_endpoint (ss : ServiceStore) (ep : Endpoint) : ServiceStore :=
  match mlookup ep.vip ss.by_vip with
  | some host =>
    let addEp := fun (svc : Service) =>
      { svc with endpoints := minsert ep.address ep svc.endpoints }
    { ss with by_host := mupdate host addEp ss.by_host }
  | none =>
    let staged := (mlookup ep.vip ss.staged_vips).getD []
    { ss with staged_vips := minsert ep.vip (minsert ep.address ep staged) ss.staged_vips }

/-- Modelled from the spec: remove the endpoint keyed by a workload address
from every service and from staging, dropping staging entries that become
empty. -/
def ServiceStore.remove_endpoint (ss : ServiceStore) (addr : NetworkAddress) : ServiceStore :=
  { by_host := ss.by_host.map (fun p => (p.1, { p.2 with endpoints := merase addr p.2.endpoints })),
    by_vip := ss.by_vip,
    staged_vips :=
      (ss.staged_vips.map (fun p => (p.1, merase addr p.2))).filter (fun p => ¬ p.2.isEmpty) }

/-- Modelled from the spec: remove a service by its namespace/hostname key,
clearing its VIP index entries; returns the removed service, when any. -/
def ServiceStore.removeService (ss : ServiceStore) (key : NamespacedHostname) :
    ServiceStore × Option Service :=
  match mlookup key ss.by_host with
  | none => (ss, none)
  | some svc =>
    ({ by_host := merase key ss.by_host,
       by_vip := svc.vips.foldl (fun m v => merase v m) ss.by_vip,
       staged_vips := ss.staged_vips },
     some svc)

/-! ### The proxy state and the discovery reducer (`src/xds.rs`) -/

/-- The mesh state: workload store plus service store, as `ProxyState`. -/
structure ProxyState where
  workloads : WorkloadStore
  services : ServiceStore
deriving DecidableEq

/-- The empty proxy state. -/
def ProxyState.empty : ProxyState := ⟨WorkloadStore.empty, ServiceStore.empty⟩

/-- The `service_endpoints` function of `src/xds.rs`: derive one endpoint per
(virtual IP, workload IP) pair; a VIP key may carry an explicit
`network/IP` prefix, otherwise the workload's network is assumed; the IP
part must parse. -/
def service_endpoints (workload : Workload) (virtual_ips : List (Str × PortList)) :
    Except Str (List Endpoint) := do
  let mut out := []
  for entry in virtual_ips do
    let parts := splitOnce '/' entry.1
    let vipStr := match parts with
      | some p => p.2
      | none => entry.1
    let svc_network := match parts with
      | some p => p.1
      | none => workload.network
    match ipParse vipStr with
    | none => throw (("failed to parse address").toList)
    | some ip =>
      let vip := network_addr svc_network ip
      for wip in workload.workload_ips do
        out := out ++ [{ vip := vip, address := network_addr workload.network wip,
                         port := entry.2 }]
  return out

/-- The `ProxyStateUpdater::remove` method: try the key as a workload UID and
tear down that workload's endpoints; otherwise interpret `namespace/hostname`
keys (whose hostname part holds no further slash) as service keys; ignore
anything else. -/
def updaterRemove (st : ProxyState) (xds_name : Str) : ProxyState :=
  match st.workloads.remove_workload xds_name with
  | (ws, some prev) =>
    { workloads := ws,
      services :=
        prev.workload_ips.foldl
          (fun ss ip => ss.remove_endpoint (network_addr prev.network ip)) st.services }
  | (_, none) =>
    match splitOnce '/' xds_name with
    | none => st
    | some (namespacePart, hostname) =>
      if (splitOnce '/' hostname).isSome then st
      else
        { st with services :=
            (st.services.removeService { ns := namespacePart, hostname := hostname }).1 }

/-- The `ProxyStateUpdater::insert_workload` method: convert the resource,
remove any previous state under its UID, derive endpoints only for healthy
workloads, insert the workload, then insert the endpoints (popped from the
end of the derived list). The embedding returns the successful final state;
on an error the Rust caller rejects the resource (the theorems below only
concern upserts whose conversion succeeds). -/
def updaterInsertWorkload (st : ProxyState) (w : XdsWorkload) :
    Except WorkloadError ProxyState :=
  workloadTryFrom w >>= fun workload =>
  let st2 := updaterRemove st w.uid
  (if workload.status = HealthStatus.Healthy then
      match service_endpoints workload w.virtual_ips with
      | .ok eps => .ok eps
      | .error _ => .error WorkloadError.AddressParse
    else .ok []) >>= fun endpoints =>
  .ok { workloads := st2.workloads.insert_workload workload,
        services := endpoints.reverse.foldl (fun ss ep => ss.insert_endpoint ep) st2.services }

/-! ### The inbound CONNECT handler (`Inbound::serve_connect` of
`src/proxy/inbound.rs`)

The demand proxy state (`src/state/mod.rs`) and the RBAC evaluator
(`src/rbac.rs`) are not among the embedded sources. `fetch_workload` is
modelled from the spec as the direct workload-index lookup
(`find_workload_by_address`), `fetch_address` as workload index first and
service-VIP index second, and `assert_rbac` as an opaque boolean oracle
passed in as a function. The outcome of the upstream TCP connect performed
by `handle_inbound` is likewise an oracle. A Rust panic (the `.unwrap()`
on the waypoint and gateway checks) is the `Except.error` case. -/

/-- The `address::Address` sum: a workload or a service. -/
inductive Address where
  | workload (w : Workload)
  | service (s : Service)
deriving DecidableEq

/-- Modelled from the spec: `DemandProxyState::fetch_workload` as the plain
workload lookup by network address (no on-demand discovery). -/
def fetchWorkload (st : ProxyState) (addr : NetworkAddress) : Option Workload :=
  st.workloads.find_workload addr

/-- Modelled from the spec: `fetch_address` consults the workload index
first, then the service-VIP index. -/
def fetchAddress (st : ProxyState) (addr : NetworkAddress) : Option Address :=
  match fetchWorkload st addr with
  | some w => some (.workload w)
  | none => (st.services.get_by_vip addr).map .service

/-- The connection tuple of `src/rbac.rs` as used by the inbound path:
peer identity from the client certificate, peer IP, destination network and
destination socket address. -/
structure Connection where
  src_identity : Option Identity
  src_ip : Ip
  dst_network : Str
  dst : SockAddr
deriving DecidableEq

/-- The proxy error cases reachable from the embedded handler. -/
inductive ProxyErr where
  | UnsupportedFeature (msg : Str)
deriving DecidableEq

/-- The `Inbound::check_gateway_address` helper: no gateway means false; a
hostname destination is an unsupported feature error; an address destination
is resolved through `fetch_address`, comparing the peer identity against the
workload's identity, or against each endpoint workload of a service. -/
def checkGatewayAddress (st : ProxyState) (conn : Connection)
    (gateway_address : Option GatewayAddress) : Except ProxyErr Bool :=
  match gateway_address with
  | none => .ok false
  | some addr =>
    match addr.destination with
    | .Hostname _ => .error (.UnsupportedFeature ("hostname lookup not supported yet").toList)
    | .Address gateway_nw_addr =>
      match fetchAddress st gateway_nw_addr with
      | some (.workload wl) => .ok (decide (some wl.identity = conn.src_identity))
      | some (.service svc) =>
        .ok (svc.endpoints.any
          (fun p => decide ((fetchWorkload st p.1).map Workload.identity = conn.src_identity)))
      | none => .ok false

/-- The `Inbound::check_waypoint` helper. -/
def checkWaypoint (st : ProxyState) (upstream : Workload) (conn : Connection) :
    Except ProxyErr Bool :=
  checkGatewayAddress st conn upstream.waypoint

/-- The `Inbound::check_gateway` helper. -/
def checkGateway (st : ProxyState) (upstream : Workload) (conn : Connection) :
    Except ProxyErr Bool :=
  checkGatewayAddress st conn upstream.network_gateway

/-- The request method: CONNECT or anything else. -/
inductive HttpMethod where
  | CONNECT
  | other (nm : Str)
deriving DecidableEq

/-- The inner tunnel request: method, authority string, and the source IP a
`Forwarded` header resolves to, when present (`get_original_src_from_fwded`). -/
structure RequestX where
  method : HttpMethod
  uri : Str
  fwdFor : Option Ip
deriving DecidableEq

/-- What one `serve_connect` call did: the HTTP status of the response, and
whether the RBAC evaluator ran and whether an upstream connect was
attempted. -/
structure ServeOutcome where
  status : Nat
  rbacChecked : Bool
  upstreamAttempted : Bool
deriving DecidableEq

/-- The `Inbound::serve_connect` request pipeline. `rbac` is the opaque
`assert_rbac` oracle and `connectOk` the outcome of `handle_inbound`'s
upstream connect to the authority address. Every early return carries its
status; reaching `handle_inbound` yields 200 on connect success and 503 on
failure; an `Err` from the waypoint or gateway check is unwrapped by the
Rust code, i.e. the request aborts with a panic (`Except.error`). -/
def serveConnect (st : ProxyState) (rbac : Connection → Bool) (connectOk : SockAddr → Bool)
    (conn : Connection) (req : RequestX) : Except ProxyErr ServeOutcome :=
  match req.method with
  | .other _ => .ok ⟨404, false, false⟩
  | .CONNECT =>
    match sockAddrParse req.uri with
    | none => .ok ⟨400, false, false⟩
    | some addr =>
      if addr.ip ≠ conn.dst.ip then .ok ⟨400, false, false⟩
      else
        let conn := { conn with dst := addr }
        let dst_network_addr : NetworkAddress :=
          { network := conn.dst_network, address := addr.ip }
        match fetchWorkload st dst_network_addr with
        | none => .ok ⟨404, false, false⟩
        | some upstream => do
          let has_waypoint := upstream.waypoint.isSome
          let from_waypoint ← checkWaypoint st upstream conn
          let _from_gateway ← checkGateway st upstream conn
          if from_waypoint = false ∧ rbac conn = false then
            .ok ⟨401, true, false⟩
          else if has_waypoint = true ∧ from_waypoint = false then
            .ok ⟨401, !from_waypoint, false⟩
          else
            let _source_ip := if from_waypoint then req.fwdFor.getD conn.src_ip else conn.src_ip
            .ok ⟨if connectOk addr then 200 else 503, !from_waypoint, true⟩

/-! ### Lemmas about the association-list maps -/

section MapLemmas

variable {κ α : Type} [DecidableEq κ]

/-- The key list of a map. -/
def mkeys (l : List (κ × α)) : List κ := l.map Prod.fst

omit [DecidableEq κ] in
theorem mkeys_nil : mkeys ([] : List (κ × α)) = [] := rfl

omit [DecidableEq κ] in
theorem mkeys_cons (p : κ × α) (l : List (κ × α)) : mkeys (p :: l) = p.1 :: mkeys l := rfl

/-- Well-formedness of a map: no duplicate keys (the refinement invariant of
a Rust `HashMap`). -/
def NodupKeys (l : List (κ × α)) : Prop := (mkeys l).Nodup

instance (l : List (κ × α)) : Decidable (NodupKeys l) := by
  unfold NodupKeys
  infer_instance

theorem mlookup_eq_none_iff {k : κ} {l : List (κ × α)} :
    mlookup k l = none ↔ k ∉ mkeys l := by
  induction l with
  | nil => simp [mlookup, mkeys_nil]
  | cons p rest ih =>
    obtain ⟨k2, v⟩ := p
    rw [mkeys_cons]
    by_cases hk : k2 = k
    · subst hk
      rw [show mlookup k2 ((k2, v) :: rest) = some v from by rw [mlookup, if_pos rfl]]
      simp
    · rw [show mlookup k ((k2, v) :: rest) = mlookup k rest from by rw [mlookup, if_neg hk], ih]
      simp only [List.mem_cons, not_or]
      constructor
      · intro h
        exact ⟨fun hc => hk hc.symm, h⟩
      · intro h
        exact h.2

theorem mlookup_cons_self (k : κ) (v : α) (l : List (κ × α)) :
    mlookup k ((k, v) :: l) = some v := by
  rw [mlookup, if_pos rfl]

theorem mlookup_cons_ne {k k2 : κ} (v : α) (l : List (κ × α)) (h : k2 ≠ k) :
    mlookup k ((k2, v) :: l) = mlookup k l := by
  rw [mlookup, if_neg h]

theorem merase_cons_self (k : κ) (v : α) (l : List (κ × α)) :
    merase k ((k, v) :: l) = l := by
  rw [merase, if_pos rfl]

theorem merase_cons_ne {k k2 : κ} (v : α) (l : List (κ × α)) (h : k2 ≠ k) :
    merase k ((k2, v) :: l) = (k2, v) :: merase k l := by
  rw [merase, if_neg h]

theorem merase_sublist (k : κ) (l : List (κ × α)) : (merase k l).Sublist l := by
  induction l with
  | nil => simp [merase]
  | cons p rest ih =>
    obtain ⟨k2, v⟩ := p
    by_cases hk : k2 = k
    · simp [merase, hk]
    · rw [merase_cons_ne _ _ hk]
      exact ih.cons₂ _

theorem nodupKeys_of_merase (k : κ) {l : List (κ × α)} (h : NodupKeys l) :
    NodupKeys (merase k l) :=
  ((merase_sublist k l).map Prod.fst).nodup h

theorem mkeys_merase_subset (k : κ) {l : List (κ × α)} :
    ∀ x ∈ mkeys (merase k l), x ∈ mkeys l :=
  fun _ hx => ((merase_sublist k l).map Prod.fst).mem hx

theorem merase_of_not_mem {k : κ} {l : List (κ × α)} (h : k ∉ mkeys l) :
    merase k l = l := by
  induction l with
  | nil => rfl
  | cons p rest ih =>
    obtain ⟨k2, v⟩ := p
    rw [mkeys_cons] at h
    simp only [List.mem_cons, not_or] at h
    rw [merase_cons_ne _ _ (fun hc => h.1 hc.symm), ih h.2]

theorem mlookup_merase_ne {k k2 : κ} {l : List (κ × α)} (h : k2 ≠ k) :
    mlookup k2 (merase k l) = mlookup k2 l := by
  induction l with
  | nil => rfl
  | cons p rest ih =>
    obtain ⟨k3, v⟩ := p
    by_cases hk : k3 = k
    · subst hk
      rw [merase_cons_self, mlookup_cons_ne _ _ (fun hc => h hc.symm)]
    · rw [merase_cons_ne _ _ hk]
      by_cases hk2 : k3 = k2
      · subst hk2
        rw [mlookup_cons_self, mlookup_cons_self]
      · rw [mlookup_cons_ne _ _ hk2, mlookup_cons_ne _ _ hk2, ih]

theorem mlookup_merase_self (k : κ) {l : List (κ × α)} (h : NodupKeys l) :
    mlookup k (merase k l) = none := by
  induction l with
  | nil => rfl
  | cons p rest ih =>
    obtain ⟨k2, v⟩ := p
    rw [NodupKeys, mkeys_cons] at h
    have hnd := List.nodup_cons.mp h
    by_cases hk : k2 = k
    · subst hk
      rw [merase_cons_self, mlookup_eq_none_iff]
      exact hnd.1
    · rw [merase_cons_ne _ _ hk, mlookup_cons_ne _ _ hk]
      exact ih hnd.2

theorem mlookup_merase_none {k k2 : κ} {l : List (κ × α)} (h : mlookup k l = none) :
    mlookup k (merase k2 l) = none := by
  rw [mlookup_eq_none_iff] at h ⊢
  exact fun hx => h (mkeys_merase_subset _ _ hx)

theorem mlookup_minsert_self (k : κ) (v : α) (l : List (κ × α)) :
    mlookup k (minsert k v l) = some v := by
  rw [minsert, mlookup_cons_self]

theorem mlookup_minsert_ne {k k2 : κ} (v : α) {l : List (κ × α)} (h : k2 ≠ k) :
    mlookup k2 (minsert k v l) = mlookup k2 l := by
  rw [minsert, mlookup_cons_ne _ _ (fun hc => h hc.symm), mlookup_merase_ne h]

theorem nodupKeys_of_minsert (k : κ) (v : α) {l : List (κ × α)} (h : NodupKeys l) :
    NodupKeys (minsert k v l) := by
  rw [minsert, NodupKeys, mkeys_cons]
  refine List.nodup_cons.mpr ⟨?_, nodupKeys_of_merase k h⟩
  intro hc
  exact mlookup_eq_none_iff.mp (mlookup_merase_self k h) hc

theorem merase_append_right {k : κ} {a b : List (κ × α)} (h : k ∉ mkeys b) :
    merase k (a ++ b) = merase k a ++ b := by
  induction a with
  | nil =>
    rw [List.nil_append]
    rw [show merase k ([] : List (κ × α)) = [] from rfl, List.nil_append,
      merase_of_not_mem h]
  | cons p rest ih =>
    obtain ⟨k2, v⟩ := p
    by_cases hk : k2 = k
    · subst hk
      rw [List.cons_append, merase_cons_self, merase_cons_self]
    · rw [List.cons_append, merase_cons_ne _ _ hk, merase_cons_ne _ _ hk, List.cons_append, ih]

theorem minsert_append_right {k : κ} {v : α} {a b : List (κ × α)} (h : k ∉ mkeys b) :
    minsert k v (a ++ b) = minsert k v a ++ b := by
  rw [minsert, minsert, merase_append_right h, List.cons_append]

theorem foldl_minsert_append_right {w : α} {ks : List κ} {a b : List (κ × α)}
    (h : ∀ k ∈ ks, k ∉ mkeys b) :
    ks.foldl (fun m k => minsert k w m) (a ++ b)
      = ks.foldl (fun m k => minsert k w m) a ++ b := by
  induction ks generalizing a with
  | nil => rfl
  | cons k rest ih =>
    simp only [List.foldl_cons]
    rw [minsert_append_right (h k (by simp))]
    exact ih (fun x hx => h x (by simp [hx]))

theorem foldl_merase_append_right {ks : List κ} {a b : List (κ × α)}
    (h : ∀ k ∈ ks, k ∉ mkeys b) :
    ks.foldl (fun m k => merase k m) (a ++ b)
      = ks.foldl (fun m k => merase k m) a ++ b := by
  induction ks generalizing a with
  | nil => rfl
  | cons k rest ih =>
    simp only [List.foldl_cons]
    rw [merase_append_right (h k (by simp))]
    exact ih (fun x hx => h x (by simp [hx]))

theorem mkeys_foldl_minsert_subset {w : α} {ks : List κ} {a : List (κ × α)} :
    ∀ x ∈ mkeys (ks.foldl (fun m k => minsert k w m) a), x ∈ ks ∨ x ∈ mkeys a := by
  induction ks generalizing a with
  | nil => exact fun x hx => Or.inr hx
  | cons k rest ih =>
    intro x hx
    simp only [List.foldl_cons] at hx
    rcases ih x hx with h1 | h1
    · exact Or.inl (by simp [h1])
    · rw [minsert, mkeys_cons] at h1
      rcases List.mem_cons.mp h1 with rfl | h2
      · exact Or.inl (by simp)
      · exact Or.inr (mkeys_merase_subset _ _ h2)

theorem nodupKeys_foldl_minsert {w : α} {ks : List κ} {a : List (κ × α)} (h : NodupKeys a) :
    NodupKeys (ks.foldl (fun m k => minsert k w m) a) := by
  induction ks generalizing a with
  | nil => exact h
  | cons k rest ih =>
    simp only [List.foldl_cons]
    exact ih (nodupKeys_of_minsert k w h)

theorem foldl_merase_nil_of_subset {ks : List κ} {m : List (κ × α)}
    (hsub : ∀ x ∈ mkeys m, x ∈ ks) (hnd : NodupKeys m) :
    ks.foldl (fun acc k => merase k acc) m = [] := by
  induction ks generalizing m with
  | nil =>
    cases m with
    | nil => rfl
    | cons p rest => exact absurd (hsub p.1 (by rw [mkeys_cons]; simp)) (by simp)
  | cons k rest ih =>
    simp only [List.foldl_cons]
    apply ih
    · intro x hx
      have hmem := mkeys_merase_subset _ _ hx
      rcases List.mem_cons.mp (hsub x hmem) with rfl | h1
      · exfalso
        exact mlookup_eq_none_iff.mp (mlookup_merase_self x hnd) hx
      · exact h1
    · exact nodupKeys_of_merase k hnd

theorem foldl_merase_foldl_minsert {w : α} {ks : List κ} {m : List (κ × α)}
    (h : ∀ k ∈ ks, k ∉ mkeys m) :
    ks.foldl (fun acc k => merase k acc) (ks.foldl (fun acc k => minsert k w acc) m) = m := by
  have hins : ks.foldl (fun acc k => minsert k w acc) m
      = ks.foldl (fun acc k => minsert k w acc) [] ++ m := by
    have hh := foldl_minsert_append_right (w := w) (a := []) (b := m) h
    simpa using hh
  rw [hins, foldl_merase_append_right h, foldl_merase_nil_of_subset, List.nil_append]
  · intro x hx
    rcases mkeys_foldl_minsert_subset x hx with h1 | h1
    · exact h1
    · rw [mkeys_nil] at h1
      simp at h1
  · exact nodupKeys_foldl_minsert (by rw [NodupKeys, mkeys_nil]; exact List.nodup_nil)

theorem foldl_merase_foldl_minsert_map {β : Type} (f : β → κ) {v : α} (ks : List β)
    {m : List (κ × α)} (h : ∀ b ∈ ks, f b ∉ mkeys m) :
    ks.foldl (fun acc b => merase (f b) acc)
      (ks.foldl (fun acc b => minsert (f b) v acc) m) = m := by
  have hmem : ∀ k ∈ ks.map f, k ∉ mkeys m := by
    intro k hk
    obtain ⟨b, hb, rfl⟩ := List.mem_map.mp hk
    exact h b hb
  have e1 := List.foldl_map f (fun acc k => minsert k v acc) ks m
  have e2 := List.foldl_map f (fun acc k => merase k acc) ks
    ((ks.map f).foldl (fun acc k => minsert k v acc) m)
  calc ks.foldl (fun acc b => merase (f b) acc)
        (ks.foldl (fun acc b => minsert (f b) v acc) m)
      = (ks.map f).foldl (fun acc k => merase k acc)
          ((ks.map f).foldl (fun acc k => minsert k v acc) m) := by rw [e2, e1]
    _ = m := foldl_merase_foldl_minsert hmem

theorem mlookup_foldl_merase_of_not_mem {ks : List κ} {m : List (κ × α)} {k : κ}
    (h : k ∉ ks) :
    mlookup k (ks.foldl (fun acc k2 => merase k2 acc) m) = mlookup k m := by
  induction ks generalizing m with
  | nil => rfl
  | cons k2 rest ih =>
    simp only [List.mem_cons, not_or] at h
    simp only [List.foldl_cons]
    rw [ih h.2, mlookup_merase_ne h.1]

theorem mlookup_foldl_merase_of_mem {ks : List κ} {m : List (κ × α)} {k : κ}
    (hk : k ∈ ks) (hnd : NodupKeys m) :
    mlookup k (ks.foldl (fun acc k2 => merase k2 acc) m) = none := by
  induction ks generalizing m with
  | nil => simp at hk
  | cons k2 rest ih =>
    simp only [List.foldl_cons]
    rcases List.mem_cons.mp hk with rfl | h1
    · by_cases hrest : k ∈ rest
      · exact ih hrest (nodupKeys_of_merase k hnd)
      · rw [mlookup_foldl_merase_of_not_mem hrest]
        exact mlookup_merase_self k hnd
    · exact ih h1 (nodupKeys_of_merase k2 hnd)

theorem mlookup_foldl_minsert_of_not_mem {w : α} {ks : List κ} {m : List (κ × α)} {k : κ}
    (hk : k ∉ ks) :
    mlookup k (ks.foldl (fun acc k2 => minsert k2 w acc) m) = mlookup k m := by
  induction ks generalizing m with
  | nil => rfl
  | cons k2 rest ih =>
    simp only [List.mem_cons, not_or] at hk
    simp only [List.foldl_cons]
    rw [ih hk.2, mlookup_minsert_ne _ (Ne.symm (fun hc => hk.1 hc.symm))]

theorem mlookup_foldl_minsert_of_mem {w : α} {ks : List κ} {m : List (κ × α)} {k : κ}
    (hk : k ∈ ks) :
    mlookup k (ks.foldl (fun acc k2 => minsert k2 w acc) m) = some w := by
  induction ks generalizing m with
  | nil => simp at hk
  | cons k2 rest ih =>
    simp only [List.foldl_cons]
    by_cases hrest : k ∈ rest
    · exact ih hrest
    · rcases List.mem_cons.mp hk with rfl | h1
      · rw [mlookup_foldl_minsert_of_not_mem hrest, mlookup_minsert_self]
      · exact absurd h1 hrest

theorem mem_of_mlookup {k : κ} {v : α} {l : List (κ × α)} (h : mlookup k l = some v) :
    (k, v) ∈ l := by
  induction l with
  | nil => exact absurd h (by rw [mlookup]; exact Option.noConfusion)
  | cons p rest ih =>
    obtain ⟨k2, v2⟩ := p
    by_cases hk : k2 = k
    · subst hk
      rw [mlookup_cons_self] at h
      exact List.mem_cons.mpr (Or.inl (by rw [Option.some.injEq] at h; rw [h]))
    · rw [mlookup_cons_ne _ _ hk] at h
      exact List.mem_cons.mpr (Or.inr (ih h))

theorem mlookup_of_mem {p : κ × α} {l : List (κ × α)} (hnd : NodupKeys l) (hp : p ∈ l) :
    mlookup p.1 l = some p.2 := by
  induction l with
  | nil => exact absurd hp (List.not_mem_nil p)
  | cons q rest ih =>
    obtain ⟨k2, v2⟩ := q
    rw [NodupKeys, mkeys_cons] at hnd
    have hnd2 := List.nodup_cons.mp hnd
    rcases List.mem_cons.mp hp with rfl | h1
    · exact mlookup_cons_self _ _ _
    · have hne : k2 ≠ p.1 := by
        intro hc
        exact hnd2.1 (by rw [hc]; exact List.mem_map.mpr ⟨p, h1, rfl⟩)
      rw [mlookup_cons_ne _ _ hne]
      exact ih hnd2.2 h1

theorem mem_merase_ne {p : κ × α} {k : κ} {l : List (κ × α)} (hnd : NodupKeys l)
    (hp : p ∈ merase k l) : p ∈ l ∧ p.1 ≠ k := by
  induction l with
  | nil => exact absurd hp (by rw [show merase k ([] : List (κ × α)) = [] from rfl]; simp)
  | cons q rest ih =>
    obtain ⟨k2, v2⟩ := q
    rw [NodupKeys, mkeys_cons] at hnd
    have hnd2 := List.nodup_cons.mp hnd
    by_cases hk : k2 = k
    · subst hk
      rw [merase_cons_self] at hp
      refine ⟨List.mem_cons.mpr (Or.inr hp), ?_⟩
      intro hc
      exact hnd2.1 (by rw [← hc]; exact List.mem_map.mpr ⟨p, hp, rfl⟩)
    · rw [merase_cons_ne _ _ hk] at hp
      rcases List.mem_cons.mp hp with rfl | h1
      · exact ⟨List.mem_cons.mpr (Or.inl rfl), hk⟩
      · obtain ⟨hm, hne⟩ := ih hnd2.2 h1
        exact ⟨List.mem_cons.mpr (Or.inr hm), hne⟩

theorem nodupKeys_foldl_merase {ks : List κ} {m : List (κ × α)} (h : NodupKeys m) :
    NodupKeys (ks.foldl (fun acc k => merase k acc) m) := by
  induction ks generalizing m with
  | nil => exact h
  | cons k rest ih =>
    simp only [List.foldl_cons]
    exact ih (nodupKeys_of_merase k h)

theorem mem_of_mem_foldl_merase {q : κ × α} {ks : List κ} {m : List (κ × α)}
    (hq : q ∈ ks.foldl (fun acc k => merase k acc) m) : q ∈ m := by
  induction ks generalizing m with
  | nil => exact hq
  | cons k rest ih =>
    simp only [List.foldl_cons] at hq
    exact (merase_sublist k m).subset (ih hq)

theorem mem_foldl_minsert_cases {q : κ × α} {v : α} {ks : List κ} {m : List (κ × α)}
    (hq : q ∈ ks.foldl (fun acc k => minsert k v acc) m) :
    (∃ k ∈ ks, q = (k, v)) ∨ q ∈ m := by
  induction ks generalizing m with
  | nil => exact Or.inr hq
  | cons k rest ih =>
    simp only [List.foldl_cons] at hq
    rcases ih hq with ⟨k2, hk2, rfl⟩ | h1
    · exact Or.inl ⟨k2, List.mem_cons.mpr (Or.inr hk2), rfl⟩
    · rw [minsert] at h1
      rcases List.mem_cons.mp h1 with rfl | h2
      · exact Or.inl ⟨k, List.mem_cons.mpr (Or.inl rfl), rfl⟩
      · exact Or.inr ((merase_sublist k m).subset h2)

theorem mlookup_mupdate_self (k : κ) {f : α → α} {l : List (κ × α)} :
    mlookup k (mupdate k f l) = (mlookup k l).map f := by
  induction l with
  | nil => rfl
  | cons p rest ih =>
    obtain ⟨k2, v⟩ := p
    by_cases hk : k2 = k
    · subst hk
      rw [mupdate, if_pos rfl, mlookup_cons_self, mlookup_cons_self]
      rfl
    · rw [mupdate, if_neg hk, mlookup_cons_ne _ _ hk, mlookup_cons_ne _ _ hk]
      exact ih

theorem mlookup_mupdate_ne {k k2 : κ} {f : α → α} {l : List (κ × α)} (h : k2 ≠ k) :
    mlookup k2 (mupdate k f l) = mlookup k2 l := by
  induction l with
  | nil => rfl
  | cons p rest ih =>
    obtain ⟨k3, v⟩ := p
    by_cases hk : k3 = k
    · subst hk
      rw [mupdate, if_pos rfl, mlookup_cons_ne _ _ (fun hc => h hc.symm),
        mlookup_cons_ne _ _ (fun hc => h hc.symm)]
    · rw [mupdate, if_neg hk]
      by_cases hk2 : k3 = k2
      · subst hk2
        rw [mlookup_cons_self, mlookup_cons_self]
      · rw [mlookup_cons_ne _ _ hk2, mlookup_cons_ne _ _ hk2, ih]

theorem mkeys_mupdate {k : κ} {f : α → α} {l : List (κ × α)} :
    mkeys (mupdate k f l) = mkeys l := by
  induction l with
  | nil => rfl
  | cons p rest ih =>
    obtain ⟨k2, v⟩ := p
    by_cases hk : k2 = k
    · subst hk
      rw [mupdate, if_pos rfl, mkeys_cons, mkeys_cons]
    · rw [mupdate, if_neg hk, mkeys_cons, mkeys_cons, ih]

end MapLemmas

/-! ### Reduction lemmas for the CONNECT pipeline -/

theorem except_bind_ok {ε α β : Type} (a : α) (f : α → Except ε β) :
    (Except.ok a : Except ε α) >>= f = f a := rfl

theorem except_bind_error {ε α β : Type} (e : ε) (f : α → Except ε β) :
    (Except.error e : Except ε α) >>= f = Except.error e := rfl

theorem serveConnect_other (st : ProxyState) (rbac : Connection → Bool)
    (connectOk : SockAddr → Bool) (conn : Connection) {req : RequestX} {nm : Str}
    (hm : req.method = .other nm) :
    serveConnect st rbac connectOk conn req = .ok ⟨404, false, false⟩ := by
  obtain ⟨m, uri, fwd⟩ := req
  simp only at hm
  subst hm
  rfl

theorem serveConnect_parse_fail (st : ProxyState) (rbac : Connection → Bool)
    (connectOk : SockAddr → Bool) (conn : Connection) {req : RequestX}
    (hm : req.method = .CONNECT) (hp : sockAddrParse req.uri = none) :
    serveConnect st rbac connectOk conn req = .ok ⟨400, false, false⟩ := by
  obtain ⟨m, uri, fwd⟩ := req
  simp only at hm hp
  subst hm
  simp only [serveConnect, hp]

theorem serveConnect_ip_mismatch (st : ProxyState) (rbac : Connection → Bool)
    (connectOk : SockAddr → Bool) (conn : Connection) {req : RequestX} {addr : SockAddr}
    (hm : req.method = .CONNECT) (hp : sockAddrParse req.uri = some addr)
    (hip : addr.ip ≠ conn.dst.ip) :
    serveConnect st rbac connectOk conn req = .ok ⟨400, false, false⟩ := by
  obtain ⟨m, uri, fwd⟩ := req
  simp only at hm hp
  subst hm
  simp only [serveConnect, hp, if_pos hip]

theorem serveConnect_unknown_dest (st : ProxyState) (rbac : Connection → Bool)
    (connectOk : SockAddr → Bool) (conn : Connection) {req : RequestX} {addr : SockAddr}
    (hm : req.method = .CONNECT) (hp : sockAddrParse req.uri = some addr)
    (hip : addr.ip = conn.dst.ip)
    (hup : fetchWorkload st { network := conn.dst_network, address := conn.dst.ip } = none) :
    serveConnect st rbac connectOk conn req = .ok ⟨404, false, false⟩ := by
  obtain ⟨m, uri, fwd⟩ := req
  simp only at hm hp
  subst hm
  simp only [serveConnect, hp, hip]
  rw [if_neg (by simp)]
  simp only [hup]

theorem serveConnect_reduce (st : ProxyState) (rbac : Connection → Bool)
    (connectOk : SockAddr → Bool) (conn : Connection) {req : RequestX}
    {addr : SockAddr} {upstream : Workload} {fw fg : Bool}
    (hm : req.method = .CONNECT) (hp : sockAddrParse req.uri = some addr)
    (hip : addr.ip = conn.dst.ip)
    (hup : fetchWorkload st { network := conn.dst_network, address := conn.dst.ip }
      = some upstream)
    (hw : checkWaypoint st upstream { conn with dst := addr } = .ok fw)
    (hg : checkGateway st upstream { conn with dst := addr } = .ok fg) :
    serveConnect st rbac connectOk conn req =
      (if fw = false ∧ rbac { conn with dst := addr } = false then .ok ⟨401, true, false⟩
       else if upstream.waypoint.isSome = true ∧ fw = false then .ok ⟨401, !fw, false⟩
       else .ok ⟨if connectOk addr then 200 else 503, !fw, true⟩) := by
  obtain ⟨m, uri, fwd⟩ := req
  simp only at hm hp
  subst hm
  simp only [serveConnect, hp, hip]
  rw [if_neg (by simp)]
  simp only [hup]
  rw [hw, except_bind_ok, hg, except_bind_ok]

theorem serveConnect_panic_waypoint (st : ProxyState) (rbac : Connection → Bool)
    (connectOk : SockAddr → Bool) (conn : Connection) {req : RequestX}
    {addr : SockAddr} {upstream : Workload} {e : ProxyErr}
    (hm : req.method = .CONNECT) (hp : sockAddrParse req.uri = some addr)
    (hip : addr.ip = conn.dst.ip)
    (hup : fetchWorkload st { network := conn.dst_network, address := conn.dst.ip }
      = some upstream)
    (hw : checkWaypoint st upstream { conn with dst := addr } = .error e) :
    serveConnect st rbac connectOk conn req = .error e := by
  obtain ⟨m, uri, fwd⟩ := req
  simp only at hm hp
  subst hm
  simp only [serveConnect, hp, hip]
  rw [if_neg (by simp)]
  simp only [hup]
  rw [hw, except_bind_error]

theorem serveConnect_panic_gateway (st : ProxyState) (rbac : Connection → Bool)
    (connectOk : SockAddr → Bool) (conn : Connection) {req : RequestX}
    {addr : SockAddr} {upstream : Workload} {fw : Bool} {e : ProxyErr}
    (hm : req.method = .CONNECT) (hp : sockAddrParse req.uri = some addr)
    (hip : addr.ip = conn.dst.ip)
    (hup : fetchWorkload st { network := conn.dst_network, address := conn.dst.ip }
      = some upstream)
    (hw : checkWaypoint st upstream { conn with dst := addr } = .ok fw)
    (hg : checkGateway st upstream { conn with dst := addr } = .error e) :
    serveConnect st rbac connectOk conn req = .error e := by
  obtain ⟨m, uri, fwd⟩ := req
  simp only at hm hp
  subst hm
  simp only [serveConnect, hp, hip]
  rw [if_neg (by simp)]
  simp only [hup]
  rw [hw, except_bind_ok, hg, except_bind_error]

/-! ### Field characterization of the XDS workload conversion -/

theorem workloadTryFrom_fields {r : XdsWorkload} {wl : Workload}
    (h : workloadTryFrom r = .ok wl) :
    wl.trust_domain = (if r.trust_domain = [] then ("cluster.local").toList else r.trust_domain)
    ∧ wl.service_account
        = (if r.service_account = [] then ("default").toList else r.service_account)
    ∧ wl.cluster_id = (if r.cluster_id = [] then ("Kubernetes").toList else r.cluster_id)
    ∧ wl.ns = r.ns ∧ wl.uid = r.uid ∧ wl.network = r.network := by
  rw [workloadTryFrom] at h
  cases hwp : optGatewayTryFrom r.waypoint with
  | error e =>
    rw [hwp, except_bind_error] at h
    exact absurd h (by simp)
  | ok wp =>
    rw [hwp, except_bind_ok] at h
    cases hgw : optGatewayTryFrom r.network_gateway with
    | error e =>
      rw [hgw, except_bind_error] at h
      exact absurd h (by simp)
    | ok gw =>
      rw [hgw, except_bind_ok] at h
      cases haddr : r.addresses.mapM byteToIp with
      | error e =>
        rw [haddr, except_bind_error] at h
        exact absurd h (by simp)
      | ok addrs =>
        rw [haddr, except_bind_ok] at h
        cases hproto : protocolTryFrom r.tunnel_protocol with
        | error e =>
          rw [hproto, except_bind_error] at h
          exact absurd h (by simp)
        | ok proto =>
          rw [hproto, except_bind_ok] at h
          cases hstat : healthTryFrom r.status with
          | error e =>
            rw [hstat, except_bind_error] at h
            exact absurd h (by simp)
          | ok stat =>
            rw [hstat, except_bind_ok] at h
            have hwl := (Except.ok.inj h).symm
            subst hwl
            exact ⟨rfl, rfl, rfl, rfl, rfl, rfl⟩

/-! ### Claim C9: NetworkAddress serialization round trip and byte_to_ip -/

/-- Claim C9 counterexample: the claim quantifies over every network name,
but `NetworkAddress` deserialization splits at the first slash, so a network
name containing a slash does not round trip: `a/b` with IP `127.0.0.1`
formats to `a/b/127.0.0.1`, which parses as network `a` with the unparseable
IP text `b/127.0.0.1` and fails. -/
theorem networkAddress_roundtrip_slash_cex :
    networkAddressParse
        (networkAddressFmt { network := ("a/b").toList, address := Ip.v4 ⟨127, 0, 0, 1⟩ })
      ≠ some { network := ("a/b").toList, address := Ip.v4 ⟨127, 0, 0, 1⟩ } := by
  decide

/-- Claim C9 (amended): for every network name containing no slash and every
valid IPv4 or IPv6 address, parsing the formatted `network/IP` string yields
back exactly that pair; and `byte_to_ip` succeeds on byte slices of length 4
and 16 and fails on every other length `n` (including 0) with
`ByteAddressParse(n)` carrying the original length. -/
theorem networkAddress_roundtrip_and_byteToIp :
    (∀ na : NetworkAddress, '/' ∉ na.network → na.address.valid →
      networkAddressParse (networkAddressFmt na) = some na)
    ∧ (∀ b : List Nat, b.length = 4 ∨ b.length = 16 → ∃ ip, byteToIp b = .ok ip)
    ∧ (∀ b : List Nat, b.length ≠ 4 → b.length ≠ 16 →
        byteToIp b = .error (.ByteAddressParse b.length)) := by
  refine ⟨?_, ?_, ?_⟩
  · intro na hnet hvalid
    obtain ⟨net, ip⟩ := na
    simp only at hnet hvalid
    simp only [networkAddressFmt, networkAddressParse, splitOnce_append hnet,
      ipParse_ipFmt ip hvalid]
    rfl
  · intro b hb
    rcases hb with hb | hb
    · exact ⟨_, by rw [byteToIp, if_pos hb]⟩
    · by_cases h4 : b.length = 4
      · exact ⟨_, by rw [byteToIp, if_pos h4]⟩
      · exact ⟨_, by rw [byteToIp, if_neg h4, if_pos hb]⟩
  · intro b h4 h16
    rw [byteToIp, if_neg h4, if_neg h16]

/-- Witness for the amended claim C9 at concrete inputs. -/
theorem networkAddress_roundtrip_and_byteToIp_witness :
    networkAddressParse
        (networkAddressFmt { network := ("testnet").toList, address := Ip.v4 ⟨10, 0, 0, 5⟩ })
      = some { network := ("testnet").toList, address := Ip.v4 ⟨10, 0, 0, 5⟩ }
    ∧ (∃ ip, byteToIp [127, 0, 0, 1] = .ok ip)
    ∧ byteToIp [1, 2, 3] = .error (.ByteAddressParse 3) :=
  ⟨networkAddress_roundtrip_and_byteToIp.1 _ (by decide) (by decide),
   networkAddress_roundtrip_and_byteToIp.2.1 [127, 0, 0, 1] (by decide),
   networkAddress_roundtrip_and_byteToIp.2.2 [1, 2, 3] (by decide) (by decide)⟩

/-! ### Claim C10: identity defaults in the XDS workload conversion -/

/-- Claim C10: converting an XDS workload with empty trust domain, service
account and cluster id substitutes `cluster.local`, `default` and
`Kubernetes`, so the derived identity is
`spiffe://cluster.local/ns/(namespace)/sa/default`. -/
theorem workload_conversion_identity_defaults (r : XdsWorkload) (wl : Workload)
    (h : workloadTryFrom r = .ok wl)
    (htd : r.trust_domain = []) (hsa : r.service_account = []) (hcid : r.cluster_id = []) :
    wl.trust_domain = ("cluster.local").toList
    ∧ wl.service_account = ("default").toList
    ∧ wl.cluster_id = ("Kubernetes").toList
    ∧ wl.identity.spiffe
        = ("spiffe://cluster.local/ns/").toList ++ r.ns ++ ("/sa/default").toList := by
  obtain ⟨htd2, hsa2, hcid2, hns, _, _⟩ := workloadTryFrom_fields h
  rw [htd, if_pos rfl] at htd2
  rw [hsa, if_pos rfl] at hsa2
  rw [hcid, if_pos rfl] at hcid2
  refine ⟨htd2, hsa2, hcid2, ?_⟩
  rw [Identity.spiffe]
  rw [show wl.identity.trust_domain = wl.trust_domain from rfl,
    show wl.identity.ns = wl.ns from rfl,
    show wl.identity.service_account = wl.service_account from rfl]
  rw [htd2, hsa2, hns]
  rw [show ("spiffe://").toList ++ ("cluster.local").toList ++ ("/ns/").toList
      = ("spiffe://cluster.local/ns/").toList from by decide]
  rw [List.append_assoc, show ("/sa/").toList ++ ("default").toList
      = ("/sa/default").toList from by decide]

/-- A minimal XDS workload resource with empty identity fields, used as a
concrete test fixture. -/
def xdsEmptyIdentity : XdsWorkload :=
  { uid := ("uid1").toList, name := [], ns := ("ns1").toList, addresses := [],
    tunnel_protocol := 0, trust_domain := [], service_account := [], node := [],
    network := [], workload_name := [], workload_type_lc := [], canonical_name := [],
    canonical_revision := [], status := 0, native_tunnel := false,
    authorization_policies := [], cluster_id := [], waypoint := none,
    network_gateway := none, virtual_ips := [] }

/-- Witness for claim C10: a minimal XDS workload with empty identity fields
converts with the documented defaults. -/
theorem workload_conversion_identity_defaults_witness :
    ∃ wl, workloadTryFrom xdsEmptyIdentity = .ok wl
      ∧ wl.trust_domain = ("cluster.local").toList
      ∧ wl.service_account = ("default").toList
      ∧ wl.cluster_id = ("Kubernetes").toList
      ∧ wl.identity.spiffe
          = ("spiffe://cluster.local/ns/").toList ++ xdsEmptyIdentity.ns
              ++ ("/sa/default").toList := by
  have hok : ∃ wl, workloadTryFrom xdsEmptyIdentity = .ok wl := ⟨_, rfl⟩
  obtain ⟨wl, hwl⟩ := hok
  have h := workload_conversion_identity_defaults xdsEmptyIdentity wl hwl rfl rfl rfl
  exact ⟨wl, hwl, h⟩

/-! ### Concrete fixtures for the CONNECT-pipeline claims -/

/-- A baseline workload record with every field empty or default. -/
def wlBase : Workload :=
  { workload_ips := [], waypoint := none, network_gateway := none, gateway_address := none,
    protocol := .TCP, uid := [], name := [], ns := [], trust_domain := [],
    service_account := [], network := [], workload_name := [], workload_type := [],
    canonical_name := [], canonical_revision := [], node := [], native_tunnel := false,
    authorization_policies := [], status := .Healthy, cluster_id := [] }

/-- The upstream workload IP `10.0.0.5` of the test scenarios. -/
def ipW1 : Ip := .v4 ⟨10, 0, 0, 5⟩

/-- The waypoint workload IP `10.0.0.10`. -/
def ipWP : Ip := .v4 ⟨10, 0, 0, 10⟩

/-- The network-gateway workload IP `10.0.0.20`. -/
def ipGW : Ip := .v4 ⟨10, 0, 0, 20⟩

/-- The peer identity presented by the client certificate. -/
def idClient : Identity :=
  { trust_domain := ("cluster.local").toList, ns := ("client").toList,
    service_account := ("client-sa").toList }

/-- A workload that declares a (resolved-address) waypoint at `ipWP`. -/
def wlW1 : Workload :=
  { wlBase with
    uid := ("w1").toList,
    workload_ips := [ipW1],
    waypoint := some { destination := .Address { network := [], address := ipWP },
                       port := 15008 } }

/-- The waypoint's own workload; its identity differs from `idClient`. -/
def wlWP : Workload :=
  { wlBase with
    uid := ("wp").toList,
    workload_ips := [ipWP],
    service_account := ("waypoint-sa").toList }

/-- A gateway workload whose identity equals the peer identity `idClient`. -/
def wlGW : Workload :=
  { wlBase with
    uid := ("gw").toList,
    workload_ips := [ipGW],
    trust_domain := ("cluster.local").toList,
    ns := ("client").toList,
    service_account := ("client-sa").toList }

/-- A workload with a network gateway at `ipGW` and no waypoint. -/
def wlW2 : Workload :=
  { wlBase with
    uid := ("w2").toList,
    workload_ips := [ipW1],
    network_gateway := some { destination := .Address { network := [], address := ipGW },
                              port := 15008 } }

/-- A workload whose waypoint is given as a symbolic hostname. -/
def wlW3 : Workload :=
  { wlBase with
    uid := ("w3").toList,
    workload_ips := [ipW1],
    waypoint := some { destination := .Hostname { ns := ("ns").toList,
                                                  hostname := ("wp.example.com").toList },
                       port := 15008 } }

/-- State for the bypassed-waypoint scenario: upstream plus waypoint workload. -/
def stWaypoint : ProxyState :=
  { workloads :=
      { workloads := [({ network := [], address := ipW1 }, wlW1),
                      ({ network := [], address := ipWP }, wlWP)],
        workloads_by_uid := [(("w1").toList, wlW1), (("wp").toList, wlWP)] },
    services := ServiceStore.empty }

/-- State for the from-gateway scenario: upstream plus gateway workload. -/
def stGateway : ProxyState :=
  { workloads :=
      { workloads := [({ network := [], address := ipW1 }, wlW2),
                      ({ network := [], address := ipGW }, wlGW)],
        workloads_by_uid := [(("w2").toList, wlW2), (("gw").toList, wlGW)] },
    services := ServiceStore.empty }

/-- State for the hostname-waypoint scenario. -/
def stHostnameWaypoint : ProxyState :=
  { workloads :=
      { workloads := [({ network := [], address := ipW1 }, wlW3)],
        workloads_by_uid := [(("w3").toList, wlW3)] },
    services := ServiceStore.empty }

/-- The accepted connection of the scenarios: authenticated peer, original
destination `10.0.0.5:15008` on our (empty-named) network. -/
def connFix : Connection :=
  { src_identity := some idClient, src_ip := .v4 ⟨10, 1, 1, 1⟩, dst_network := [],
    dst := { ip := ipW1, port := 15008 } }

/-- The inner request: `CONNECT 10.0.0.5:8080` (note the port differs from
the outer connection's 15008). -/
def reqFix : RequestX :=
  { method := .CONNECT, uri := ("10.0.0.5:8080").toList, fwdFor := none }

/-! ### Claim C1: bypassed waypoint yields 401 and no upstream connect -/

/-- Claim C1: when the resolved upstream workload has a waypoint configured
and the connection did not arrive from it (the waypoint check resolves to
false: the peer identity does not match the waypoint's workload identity),
`serve_connect` answers 401 and never attempts an upstream connection —
whether the RBAC policy denies first or the bypassed-waypoint guard fires. -/
theorem serve_connect_bypassed_waypoint_401 (st : ProxyState) (rbac : Connection → Bool)
    (connectOk : SockAddr → Bool) (conn : Connection) {req : RequestX}
    {addr : SockAddr} {upstream : Workload} {fg : Bool}
    (hm : req.method = .CONNECT) (hp : sockAddrParse req.uri = some addr)
    (hip : addr.ip = conn.dst.ip)
    (hup : fetchWorkload st { network := conn.dst_network, address := conn.dst.ip }
      = some upstream)
    (hwp : upstream.waypoint.isSome = true)
    (hw : checkWaypoint st upstream { conn with dst := addr } = .ok false)
    (hg : checkGateway st upstream { conn with dst := addr } = .ok fg) :
    ∃ r, serveConnect st rbac connectOk conn req = .ok r
      ∧ r.status = 401 ∧ r.upstreamAttempted = false := by
  rw [serveConnect_reduce st rbac connectOk conn hm hp hip hup hw hg]
  by_cases hr : rbac { conn with dst := addr } = false
  · rw [if_pos ⟨rfl, hr⟩]
    exact ⟨_, rfl, rfl, rfl⟩
  · rw [if_neg (fun hc => hr hc.2), if_pos ⟨hwp, rfl⟩]
    exact ⟨_, rfl, rfl, rfl⟩

/-- Witness for claim C1 on the concrete bypassed-waypoint scenario (the
RBAC oracle allows, so the 401 comes from the waypoint guard). -/
theorem serve_connect_bypassed_waypoint_401_witness :
    ∃ r, serveConnect stWaypoint (fun _ => true) (fun _ => true) connFix reqFix = .ok r
      ∧ r.status = 401 ∧ r.upstreamAttempted = false :=
  @serve_connect_bypassed_waypoint_401 stWaypoint (fun _ => true) (fun _ => true) connFix
    reqFix { ip := ipW1, port := 8080 } wlW1 false
    rfl (by decide) (by decide) (by decide) (by decide) (by decide) (by decide)

/-! ### Claim C2: when the RBAC evaluator runs -/

/-- Claim C2 counterexample: the claim says the policy evaluator runs only
when neither `from_waypoint` nor `from_gateway` holds and is skipped when
either holds. In the concrete gateway scenario the connection is from the
network gateway (`check_gateway` resolves true), yet the evaluator still
runs — a denying oracle produces a 401 with the policy marked checked,
because the code only skips policy for `from_waypoint`. -/
theorem serve_connect_gateway_policy_cex :
    checkGateway stGateway wlW2 { connFix with dst := { ip := ipW1, port := 8080 } }
        = .ok true
      ∧ serveConnect stGateway (fun _ => false) (fun _ => true) connFix reqFix
        = .ok { status := 401, rbacChecked := true, upstreamAttempted := false } := by
  constructor
  · decide
  · decide

/-- Claim C2 (amended): the RBAC policy evaluator is invoked if and only if
`from_waypoint` does not hold — `from_gateway` does not suppress policy
evaluation — and when it is invoked and denies, the response status is 401
with no upstream connection opened; when `from_waypoint` holds, policy
evaluation is skipped. -/
theorem serve_connect_rbac_iff_not_from_waypoint (st : ProxyState)
    (rbac : Connection → Bool) (connectOk : SockAddr → Bool) (conn : Connection)
    {req : RequestX} {addr : SockAddr} {upstream : Workload} {fw fg : Bool}
    (hm : req.method = .CONNECT) (hp : sockAddrParse req.uri = some addr)
    (hip : addr.ip = conn.dst.ip)
    (hup : fetchWorkload st { network := conn.dst_network, address := conn.dst.ip }
      = some upstream)
    (hw : checkWaypoint st upstream { conn with dst := addr } = .ok fw)
    (hg : checkGateway st upstream { conn with dst := addr } = .ok fg) :
    ∃ r, serveConnect st rbac connectOk conn req = .ok r
      ∧ r.rbacChecked = !fw
      ∧ (fw = false → rbac { conn with dst := addr } = false →
          r.status = 401 ∧ r.upstreamAttempted = false) := by
  rw [serveConnect_reduce st rbac connectOk conn hm hp hip hup hw hg]
  by_cases h1 : fw = false ∧ rbac { conn with dst := addr } = false
  · rw [if_pos h1]
    refine ⟨_, rfl, ?_, fun _ _ => ⟨rfl, rfl⟩⟩
    rw [h1.1]
    rfl
  · rw [if_neg h1]
    by_cases h2 : upstream.waypoint.isSome = true ∧ fw = false
    · rw [if_pos h2]
      exact ⟨_, rfl, rfl, fun hfw hr => absurd ⟨hfw, hr⟩ h1⟩
    · rw [if_neg h2]
      exact ⟨_, rfl, rfl, fun hfw hr => absurd ⟨hfw, hr⟩ h1⟩

/-- Witness for the amended claim C2 on the gateway scenario with a denying
policy oracle. -/
theorem serve_connect_rbac_iff_not_from_waypoint_witness :
    ∃ r, serveConnect stGateway (fun _ => false) (fun _ => true) connFix reqFix = .ok r
      ∧ r.rbacChecked = !false
      ∧ (false = false →
          (fun (_ : Connection) => false) { connFix with dst := { ip := ipW1, port := 8080 } }
            = false →
          r.status = 401 ∧ r.upstreamAttempted = false) :=
  @serve_connect_rbac_iff_not_from_waypoint stGateway (fun _ => false) (fun _ => true) connFix
    reqFix { ip := ipW1, port := 8080 } wlW2 false true
    rfl (by decide) (by decide) (by decide) (by decide) (by decide)

/-! ### Claim C3: hostname waypoint aborts the request -/

/-- The unsupported-feature error produced for symbolic hostname gateways. -/
def hostnameErr : ProxyErr :=
  .UnsupportedFeature (("hostname lookup not supported yet").toList)

theorem checkGatewayAddress_hostname (st : ProxyState) (conn : Connection)
    {gw : GatewayAddress} {h : NamespacedHostname} (hd : gw.destination = .Hostname h) :
    checkGatewayAddress st conn (some gw) = .error hostnameErr := by
  rw [checkGatewayAddress]
  rw [hd]
  rfl

/-- Claim C3 counterexample: with the waypoint given as a symbolic hostname,
the request does not continue normally — `check_waypoint` returns an
`UnsupportedFeature` error which `serve_connect` unwraps, aborting the
request (a panic, modelled as `Except.error`) instead of producing any
response. -/
theorem serve_connect_hostname_waypoint_cex :
    serveConnect stHostnameWaypoint (fun _ => true) (fun _ => true) connFix reqFix
      = .error hostnameErr := by
  decide

/-- Claim C3 (amended): when the destination workload's waypoint (or network
gateway) is specified as a symbolic hostname rather than a resolved address,
the connection-handling path does not treat it as absent and continue: the
check returns an `UnsupportedFeature` error and `serve_connect` unwraps it,
aborting the request without a response. -/
theorem serve_connect_hostname_gateway_aborts (st : ProxyState)
    (rbac : Connection → Bool) (connectOk : SockAddr → Bool) (conn : Connection)
    {req : RequestX} {addr : SockAddr} {upstream : Workload}
    (hm : req.method = .CONNECT) (hp : sockAddrParse req.uri = some addr)
    (hip : addr.ip = conn.dst.ip)
    (hup : fetchWorkload st { network := conn.dst_network, address := conn.dst.ip }
      = some upstream) :
    (∀ gw h, upstream.waypoint = some gw → gw.destination = .Hostname h →
      serveConnect st rbac connectOk conn req = .error hostnameErr)
    ∧ (∀ fw gw h, checkWaypoint st upstream { conn with dst := addr } = .ok fw →
        upstream.network_gateway = some gw → gw.destination = .Hostname h →
        serveConnect st rbac connectOk conn req = .error hostnameErr) := by
  constructor
  · intro gw h hgw hd
    apply serveConnect_panic_waypoint st rbac connectOk conn hm hp hip hup
    rw [checkWaypoint, hgw]
    exact checkGatewayAddress_hostname st _ hd
  · intro fw gw h hw hgw hd
    apply serveConnect_panic_gateway st rbac connectOk conn hm hp hip hup hw
    rw [checkGateway, hgw]
    exact checkGatewayAddress_hostname st _ hd

/-- Witness for the amended claim C3 on the hostname-waypoint scenario. -/
theorem serve_connect_hostname_gateway_aborts_witness :
    serveConnect stHostnameWaypoint (fun _ => true) (fun _ => true) connFix reqFix
      = .error hostnameErr :=
  (@serve_connect_hostname_gateway_aborts stHostnameWaypoint (fun _ => true) (fun _ => true)
      connFix reqFix { ip := ipW1, port := 8080 } wlW3
      rfl (by decide) (by decide) (by decide)).1
    { destination := .Hostname { ns := ("ns").toList, hostname := ("wp.example.com").toList },
      port := 15008 }
    { ns := ("ns").toList, hostname := ("wp.example.com").toList }
    (by decide) (by decide)

/-! ### Claim C8: the response code mapping of the inner request handler -/

/-- Claim C8: for every request, a non-CONNECT verb yields 404; an authority
that does not parse as IP:port yields 400; an authority whose IP differs
from the connection's original destination IP yields 400 (the port may
differ, as the success and 404 cases apply to any authority port); an
authority IP with no matching workload yields 404; and whenever an upstream
connect is attempted, the response is 200 on success and 503 on failure. -/
theorem serve_connect_status_mapping (st : ProxyState) (rbac : Connection → Bool)
    (connectOk : SockAddr → Bool) (conn : Connection) (req : RequestX) :
    (∀ nm, req.method = .other nm →
      serveConnect st rbac connectOk conn req = .ok ⟨404, false, false⟩)
    ∧ (req.method = .CONNECT → sockAddrParse req.uri = none →
        serveConnect st rbac connectOk conn req = .ok ⟨400, false, false⟩)
    ∧ (∀ addr, req.method = .CONNECT → sockAddrParse req.uri = some addr →
        addr.ip ≠ conn.dst.ip →
        serveConnect st rbac connectOk conn req = .ok ⟨400, false, false⟩)
    ∧ (∀ addr, req.method = .CONNECT → sockAddrParse req.uri = some addr →
        addr.ip = conn.dst.ip →
        fetchWorkload st { network := conn.dst_network, address := conn.dst.ip } = none →
        serveConnect st rbac connectOk conn req = .ok ⟨404, false, false⟩)
    ∧ (∀ addr r, sockAddrParse req.uri = some addr →
        serveConnect st rbac connectOk conn req = .ok r →
        r.upstreamAttempted = true →
        r.status = if connectOk addr then 200 else 503) := by
  refine ⟨?_, ?_, ?_, ?_, ?_⟩
  · intro nm hm
    exact serveConnect_other st rbac connectOk conn hm
  · intro hm hp
    exact serveConnect_parse_fail st rbac connectOk conn hm hp
  · intro addr hm hp hne
    exact serveConnect_ip_mismatch st rbac connectOk conn hm hp hne
  · intro addr hm hp hip hup
    exact serveConnect_unknown_dest st rbac connectOk conn hm hp hip hup
  · intro addr r hp hr hatt
    cases hmm : req.method with
    | other nm =>
      rw [serveConnect_other st rbac connectOk conn hmm] at hr
      have := (Except.ok.inj hr)
      rw [← this] at hatt
      simp at hatt
    | CONNECT =>
      by_cases hip : addr.ip = conn.dst.ip
      · cases hup : fetchWorkload st { network := conn.dst_network, address := conn.dst.ip } with
        | none =>
          rw [serveConnect_unknown_dest st rbac connectOk conn hmm hp hip hup] at hr
          have := (Except.ok.inj hr)
          rw [← this] at hatt
          simp at hatt
        | some upstream =>
          cases hw : checkWaypoint st upstream { conn with dst := addr } with
          | error e =>
            rw [serveConnect_panic_waypoint st rbac connectOk conn hmm hp hip hup hw] at hr
            exact absurd hr (by simp)
          | ok fw =>
            cases hg : checkGateway st upstream { conn with dst := addr } with
            | error e =>
              rw [serveConnect_panic_gateway st rbac connectOk conn hmm hp hip hup hw hg] at hr
              exact absurd hr (by simp)
            | ok fg =>
              rw [serveConnect_reduce st rbac connectOk conn hmm hp hip hup hw hg] at hr
              split_ifs at hr with h1 h2 hc
              · have := (Except.ok.inj hr)
                rw [← this] at hatt
                simp at hatt
              · have := (Except.ok.inj hr)
                rw [← this] at hatt
                simp at hatt
              · have := (Except.ok.inj hr)
                rw [← this]
                simp [hc]
              · have := (Except.ok.inj hr)
                rw [← this]
                simp [hc]
      · rw [serveConnect_ip_mismatch st rbac connectOk conn hmm hp hip] at hr
        have := (Except.ok.inj hr)
        rw [← this] at hatt
        simp at hatt

/-- Witness for claim C8: the mapping applied at concrete requests — an
unknown verb, a malformed authority, an IP-mismatched authority, an unknown
destination, and a successful tunnel whose authority port 8080 differs from
the outer destination port 15008. -/
theorem serve_connect_status_mapping_witness :
    serveConnect stWaypoint (fun _ => true) (fun _ => true) connFix
        { method := .other (("GET").toList), uri := reqFix.uri, fwdFor := none }
      = .ok ⟨404, false, false⟩
    ∧ serveConnect stWaypoint (fun _ => true) (fun _ => true) connFix
        { method := .CONNECT, uri := ("not an authority").toList, fwdFor := none }
      = .ok ⟨400, false, false⟩
    ∧ serveConnect stWaypoint (fun _ => true) (fun _ => true) connFix
        { method := .CONNECT, uri := ("10.0.0.6:8080").toList, fwdFor := none }
      = .ok ⟨400, false, false⟩
    ∧ serveConnect stGateway (fun _ => true) (fun _ => true)
        { connFix with dst := { ip := ipWP, port := 15008 } }
        { method := .CONNECT, uri := ("10.0.0.10:8080").toList, fwdFor := none }
      = .ok ⟨404, false, false⟩
    ∧ (⟨200, true, true⟩ : ServeOutcome).status
      = if (fun (_ : SockAddr) => true) { ip := ipGW, port := 8080 } then 200 else 503 := by
  refine ⟨?_, ?_, ?_, ?_, ?_⟩
  · exact (serve_connect_status_mapping stWaypoint (fun _ => true) (fun _ => true) connFix
      { method := .other (("GET").toList), uri := reqFix.uri, fwdFor := none }).1
      (("GET").toList) rfl
  · exact (serve_connect_status_mapping stWaypoint (fun _ => true) (fun _ => true) connFix
      { method := .CONNECT, uri := ("not an authority").toList, fwdFor := none }).2.1
      rfl (by decide)
  · exact (serve_connect_status_mapping stWaypoint (fun _ => true) (fun _ => true) connFix
      { method := .CONNECT, uri := ("10.0.0.6:8080").toList, fwdFor := none }).2.2.1
      { ip := .v4 ⟨10, 0, 0, 6⟩, port := 8080 } rfl (by decide) (by decide)
  · exact (serve_connect_status_mapping stGateway (fun _ => true) (fun _ => true)
      { connFix with dst := { ip := ipWP, port := 15008 } }
      { method := .CONNECT, uri := ("10.0.0.10:8080").toList, fwdFor := none }).2.2.2.1
      { ip := ipWP, port := 8080 } rfl (by decide) (by decide) (by decide)
  · exact (serve_connect_status_mapping stGateway (fun _ => true) (fun _ => true)
      { connFix with dst := { ip := ipGW, port := 15008 } }
      { method := .CONNECT, uri := ("10.0.0.20:8080").toList, fwdFor := none }).2.2.2.2
      { ip := ipGW, port := 8080 } ⟨200, true, true⟩ (by decide) (by decide) rfl

/-! ### Well-formedness of the stores (the refinement invariant of HashMaps) -/

/-- Well-formedness of a proxy state: none of its maps carry duplicate keys. -/
def ProxyState.WF (st : ProxyState) : Prop :=
  NodupKeys st.workloads.workloads ∧ NodupKeys st.workloads.workloads_by_uid
  ∧ NodupKeys st.services.by_host ∧ NodupKeys st.services.by_vip
  ∧ NodupKeys st.services.staged_vips
  ∧ (∀ p ∈ st.services.by_host, NodupKeys p.2.endpoints)
  ∧ (∀ p ∈ st.services.staged_vips, NodupKeys p.2)

instance (st : ProxyState) : Decidable st.WF := by
  unfold ProxyState.WF NodupKeys
  infer_instance

/-! ### Lemmas about folded endpoint removal -/

theorem removeEndpoint_fold_by_vip (addrs : List NetworkAddress) (ss : ServiceStore) :
    (addrs.foldl (fun ss a => ss.remove_endpoint a) ss).by_vip = ss.by_vip := by
  induction addrs generalizing ss with
  | nil => rfl
  | cons a rest ih =>
    simp only [List.foldl_cons]
    rw [ih]
    rfl

theorem removeEndpoint_fold_mkeys_by_host (addrs : List NetworkAddress) (ss : ServiceStore) :
    mkeys (addrs.foldl (fun ss a => ss.remove_endpoint a) ss).by_host = mkeys ss.by_host := by
  induction addrs generalizing ss with
  | nil => rfl
  | cons a rest ih =>
    simp only [List.foldl_cons]
    rw [ih]
    rw [ServiceStore.remove_endpoint]
    simp [mkeys, Function.comp]

theorem removeEndpoint_fold_by_host_mem (addrs : List NetworkAddress) (ss : ServiceStore)
    {p : NamespacedHostname × Service}
    (hp : p ∈ (addrs.foldl (fun ss a => ss.remove_endpoint a) ss).by_host) :
    ∃ q ∈ ss.by_host, p.1 = q.1
      ∧ p.2.endpoints = addrs.foldl (fun m a => merase a m) q.2.endpoints := by
  induction addrs generalizing ss with
  | nil => exact ⟨p, hp, rfl, rfl⟩
  | cons a rest ih =>
    simp only [List.foldl_cons] at hp
    obtain ⟨q1, hq1, heq1, heq2⟩ := ih (ss.remove_endpoint a) hp
    rw [ServiceStore.remove_endpoint] at hq1
    simp only [List.mem_map] at hq1
    obtain ⟨q, hq, rfl⟩ := hq1
    exact ⟨q, hq, heq1, by simpa using heq2⟩

theorem removeEndpoint_fold_staged_mem (addrs : List NetworkAddress) (ss : ServiceStore)
    {p : NetworkAddress × List (NetworkAddress × Endpoint)}
    (hp : p ∈ (addrs.foldl (fun ss a => ss.remove_endpoint a) ss).staged_vips) :
    ∃ q ∈ ss.staged_vips, p.1 = q.1 ∧ p.2 = addrs.foldl (fun m a => merase a m) q.2 := by
  induction addrs generalizing ss with
  | nil => exact ⟨p, hp, rfl, rfl⟩
  | cons a rest ih =>
    simp only [List.foldl_cons] at hp
    obtain ⟨q1, hq1, heq1, heq2⟩ := ih (ss.remove_endpoint a) hp
    rw [ServiceStore.remove_endpoint] at hq1
    simp only [List.mem_filter, List.mem_map] at hq1
    obtain ⟨⟨q, hq, rfl⟩, _⟩ := hq1
    exact ⟨q, hq, heq1, by simpa using heq2⟩

/-! ### Dispatch equations for `remove_workload` and `updaterRemove` -/

theorem remove_workload_some (s : WorkloadStore) (uid : Str) (prev : Workload)
    (h : mlookup uid s.workloads_by_uid = some prev) :
    s.remove_workload uid =
      ({ workloads := prev.workload_ips.foldl
            (fun m ip => merase (network_addr prev.network ip) m) s.workloads,
         workloads_by_uid := merase uid s.workloads_by_uid }, some prev) := by
  unfold WorkloadStore.remove_workload
  rw [h]

theorem updaterRemove_some (st : ProxyState) (key : Str) (ws : WorkloadStore) (prev : Workload)
    (h : st.workloads.remove_workload key = (ws, some prev)) :
    updaterRemove st key =
      { workloads := ws,
        services := prev.workload_ips.foldl
          (fun ss ip => ss.remove_endpoint (network_addr prev.network ip)) st.services } := by
  unfold updaterRemove
  rw [h]

theorem updaterRemove_none (st : ProxyState) (key : Str) (ws : WorkloadStore)
    (h : st.workloads.remove_workload key = (ws, none)) :
    updaterRemove st key =
      match splitOnce '/' key with
      | none => st
      | some (namespacePart, hostname) =>
        if (splitOnce '/' hostname).isSome then st
        else
          { st with services :=
              (st.services.removeService { ns := namespacePart, hostname := hostname }).1 } := by
  unfold updaterRemove
  rw [h]

/-- C4: `ProxyStateUpdater::remove` dispatches on the key. A key naming a
stored workload UID removes that workload from the UID index and from the
per-address index and scrubs its network addresses from every service's
endpoint map and from staging, touching neither the VIP index nor the set
of services. Otherwise a key of the form namespace/hostname whose hostname
part holds no further slash removes exactly that service, leaving the
workload store, the other services and staging untouched. A key whose
hostname part holds another slash, or a key with no slash at all, leaves
the state untouched. -/
theorem updater_remove_disambiguation (st : ProxyState) (key : Str) (hwf : st.WF) :
    (∀ prev, mlookup key st.workloads.workloads_by_uid = some prev →
      mlookup key (updaterRemove st key).workloads.workloads_by_uid = none
      ∧ (∀ k, k ≠ key →
          mlookup k (updaterRemove st key).workloads.workloads_by_uid
            = mlookup k st.workloads.workloads_by_uid)
      ∧ (∀ ip ∈ prev.workload_ips,
          mlookup (network_addr prev.network ip) (updaterRemove st key).workloads.workloads
            = none)
      ∧ (∀ p ∈ (updaterRemove st key).services.by_host, ∀ ip ∈ prev.workload_ips,
          mlookup (network_addr prev.network ip) p.2.endpoints = none)
      ∧ (∀ p ∈ (updaterRemove st key).services.staged_vips, ∀ ip ∈ prev.workload_ips,
          mlookup (network_addr prev.network ip) p.2 = none)
      ∧ (updaterRemove st key).services.by_vip = st.services.by_vip
      ∧ mkeys (updaterRemove st key).services.by_host = mkeys st.services.by_host)
    ∧ (∀ nsp host, mlookup key st.workloads.workloads_by_uid = none →
        splitOnce '/' key = some (nsp, host) → splitOnce '/' host = none →
        (updaterRemove st key).workloads = st.workloads
        ∧ mlookup { ns := nsp, hostname := host } (updaterRemove st key).services.by_host = none
        ∧ (∀ k, k ≠ ({ ns := nsp, hostname := host } : NamespacedHostname) →
            mlookup k (updaterRemove st key).services.by_host
              = mlookup k st.services.by_host)
        ∧ (updaterRemove st key).services.staged_vips = st.services.staged_vips)
    ∧ (∀ nsp host, mlookup key st.workloads.workloads_by_uid = none →
        splitOnce '/' key = some (nsp, host) → (splitOnce '/' host).isSome = true →
        updaterRemove st key = st)
    ∧ (mlookup key st.workloads.workloads_by_uid = none → splitOnce '/' key = none →
        updaterRemove st key = st) := by
  obtain ⟨hw1, hw2, hw3, _hw4, _hw5, hw6, hw7⟩ := hwf
  refine ⟨?_, ?_, ?_, ?_⟩
  · intro prev hprev
    have hrm : st.workloads.remove_workload key =
        ({ workloads := prev.workload_ips.foldl
              (fun m ip => merase (network_addr prev.network ip) m) st.workloads.workloads,
           workloads_by_uid := merase key st.workloads.workloads_by_uid }, some prev) := by
      rw [WorkloadStore.remove_workload, hprev]
    have hred := updaterRemove_some st key _ prev hrm
    have hconvW : prev.workload_ips.foldl
        (fun m ip => merase (network_addr prev.network ip) m) st.workloads.workloads
        = (prev.workload_ips.map (fun ip => network_addr prev.network ip)).foldl
            (fun acc k2 => merase k2 acc) st.workloads.workloads :=
      (List.foldl_map (fun ip => network_addr prev.network ip) (fun acc k2 => merase k2 acc)
        prev.workload_ips st.workloads.workloads).symm
    have hconvS : prev.workload_ips.foldl
        (fun ss ip => ss.remove_endpoint (network_addr prev.network ip)) st.services
        = (prev.workload_ips.map (fun ip => network_addr prev.network ip)).foldl
            (fun ss a => ss.remove_endpoint a) st.services :=
      (List.foldl_map (fun ip => network_addr prev.network ip) (fun ss a => ss.remove_endpoint a)
        prev.workload_ips st.services).symm
    rw [hred]
    refine ⟨?_, ?_, ?_, ?_, ?_, ?_, ?_⟩
    · exact mlookup_merase_self key hw2
    · intro k hk
      exact mlookup_merase_ne hk
    · intro ip hip
      show mlookup (network_addr prev.network ip)
        (prev.workload_ips.foldl
          (fun m ip2 => merase (network_addr prev.network ip2) m) st.workloads.workloads) = none
      rw [hconvW]
      exact mlookup_foldl_merase_of_mem (List.mem_map_of_mem _ hip) hw1
    · intro p hp ip hip
      rw [hconvS] at hp
      obtain ⟨q, hq, _, hend⟩ := removeEndpoint_fold_by_host_mem _ _ hp
      rw [hend]
      exact mlookup_foldl_merase_of_mem (List.mem_map_of_mem _ hip) (hw6 q hq)
    · intro p hp ip hip
      rw [hconvS] at hp
      obtain ⟨q, hq, _, hpe⟩ := removeEndpoint_fold_staged_mem _ _ hp
      rw [hpe]
      exact mlookup_foldl_merase_of_mem (List.mem_map_of_mem _ hip) (hw7 q hq)
    · show (prev.workload_ips.foldl
          (fun ss ip => ss.remove_endpoint (network_addr prev.network ip)) st.services).by_vip
        = st.services.by_vip
      rw [hconvS]
      exact removeEndpoint_fold_by_vip _ _
    · show mkeys (prev.workload_ips.foldl
          (fun ss ip => ss.remove_endpoint (network_addr prev.network ip)) st.services).by_host
        = mkeys st.services.by_host
      rw [hconvS]
      exact removeEndpoint_fold_mkeys_by_host _ _
  · intro nsp host hnone hsplit hsplit2
    have hrm : st.workloads.remove_workload key = (st.workloads, none) := by
      rw [WorkloadStore.remove_workload, hnone]
    have hred0 := updaterRemove_none st key st.workloads hrm
    rw [hsplit] at hred0
    have hred1 : updaterRemove st key =
        if (splitOnce '/' host).isSome then st
        else { st with services :=
            (st.services.removeService { ns := nsp, hostname := host }).1 } :=
      hred0
    rw [hsplit2] at hred1
    have hred : updaterRemove st key =
        { st with services := (st.services.removeService { ns := nsp, hostname := host }).1 } := by
      rw [hred1]
      simp
    cases hsvc : mlookup { ns := nsp, hostname := host } st.services.by_host with
    | none =>
      have hrs : (st.services.removeService { ns := nsp, hostname := host }).1 = st.services := by
        unfold ServiceStore.removeService
        rw [hsvc]
      exact ⟨by rw [hred], by rw [hred, hrs]; exact hsvc,
        fun k hk => by rw [hred, hrs], by rw [hred, hrs]⟩
    | some svc =>
      have hrs : (st.services.removeService { ns := nsp, hostname := host }).1 =
          { by_host := merase { ns := nsp, hostname := host } st.services.by_host,
            by_vip := svc.vips.foldl (fun m v => merase v m) st.services.by_vip,
            staged_vips := st.services.staged_vips } := by
        unfold ServiceStore.removeService
        rw [hsvc]
      refine ⟨by rw [hred], ?_, ?_, ?_⟩
      · rw [hred, hrs]
        exact mlookup_merase_self _ hw3
      · intro k hk
        rw [hred, hrs]
        exact mlookup_merase_ne hk
      · rw [hred, hrs]
  · intro nsp host hnone hsplit hsome
    have hrm : st.workloads.remove_workload key = (st.workloads, none) := by
      rw [WorkloadStore.remove_workload, hnone]
    have hred0 := updaterRemove_none st key st.workloads hrm
    rw [hsplit] at hred0
    have hred1 : updaterRemove st key =
        if (splitOnce '/' host).isSome then st
        else { st with services :=
            (st.services.removeService { ns := nsp, hostname := host }).1 } :=
      hred0
    rw [hred1, if_pos hsome]
  · intro hnone hns
    have hrm : st.workloads.remove_workload key = (st.workloads, none) := by
      rw [WorkloadStore.remove_workload, hnone]
    have hred0 := updaterRemove_none st key st.workloads hrm
    rw [hns] at hred0
    exact hred0

/-- Fixture: the workload torn down in the C4 witness (uid c4uid, one IP). -/
def wlC4 : Workload :=
  { wlBase with
    uid := ("c4uid").toList
    network := ("net").toList
    workload_ips := [ipW1] }

/-- Fixture: the network address of wlC4. -/
def naC4 : NetworkAddress := network_addr (("net").toList) ipW1

/-- Fixture: a VIP owned by the fixture service. -/
def vipC4 : NetworkAddress := network_addr (("net").toList) ipWP

/-- Fixture: a VIP with staged endpoints only. -/
def vipC4s : NetworkAddress := network_addr (("net").toList) ipGW

/-- Fixture: an endpoint of wlC4. -/
def epC4 : Endpoint := { vip := vipC4, address := naC4, port := [(80, 8080)] }

/-- Fixture: the service holding an endpoint of wlC4. -/
def svcC4 : Service :=
  { name := ("svc").toList, ns := ("ns1").toList, hostname := ("svc").toList,
    vips := [vipC4], ports := [(80, 8080)], endpoints := [(naC4, epC4)] }

/-- Fixture: the key of svcC4. -/
def nhC4 : NamespacedHostname := { ns := ("ns1").toList, hostname := ("svc").toList }

/-- Fixture: the state the C4 witness removes from. -/
def stC4 : ProxyState :=
  { workloads :=
      { workloads := [(naC4, wlC4)], workloads_by_uid := [(("c4uid").toList, wlC4)] },
    services :=
      { by_host := [(nhC4, svcC4)],
        by_vip := [(vipC4, nhC4)],
        staged_vips := [(vipC4s, [(naC4, epC4)])] } }

/-- Witness for C4: on a concrete well-formed state, removing by workload UID
clears both workload indices and leaves the VIP index intact, removing the
namespace/hostname key deletes the service, and a doubly-slashed key is a
no-op. -/
theorem updater_remove_disambiguation_witness :
    stC4.WF
    ∧ mlookup (("c4uid").toList)
        (updaterRemove stC4 (("c4uid").toList)).workloads.workloads_by_uid = none
    ∧ mlookup naC4 (updaterRemove stC4 (("c4uid").toList)).workloads.workloads = none
    ∧ (updaterRemove stC4 (("c4uid").toList)).services.by_vip = stC4.services.by_vip
    ∧ mlookup nhC4 (updaterRemove stC4 (("ns1/svc").toList)).services.by_host = none
    ∧ updaterRemove stC4 (("a/b/c").toList) = stC4 := by
  have h1 := updater_remove_disambiguation stC4 (("c4uid").toList) (by decide)
  have h2 := updater_remove_disambiguation stC4 (("ns1/svc").toList) (by decide)
  have h3 := updater_remove_disambiguation stC4 (("a/b/c").toList) (by decide)
  refine ⟨by decide, (h1.1 wlC4 (by decide)).1, ?_, ?_, ?_, ?_⟩
  · exact (h1.1 wlC4 (by decide)).2.2.1 ipW1 (by decide)
  · exact (h1.1 wlC4 (by decide)).2.2.2.2.2.1
  · exact (h2.2.1 (("ns1").toList) (("svc").toList) (by decide) (by decide) (by decide)).2.1
  · exact h3.2.2.1 (("a").toList) (("b/c").toList) (by decide) (by decide) (by decide)

/-- Fixture: a workload stored under uid u7 with one IP. -/
def wlC7a : Workload :=
  { wlBase with
    uid := ("u7").toList
    network := ("net").toList
    workload_ips := [ipW1] }

/-- Fixture: a different record under the same uid u7 (other IP, other name). -/
def wlC7b : Workload :=
  { wlBase with
    uid := ("u7").toList
    network := ("net").toList
    workload_ips := [ipWP]
    name := ("b").toList }

/-- Fixture: a workload under the fresh uid u8 with a fresh IP. -/
def wlC7c : Workload :=
  { wlBase with
    uid := ("u8").toList
    network := ("net").toList
    workload_ips := [ipGW] }

/-- Fixture: the store already holding wlC7a. -/
def stC7 : WorkloadStore :=
  { workloads := [(network_addr (("net").toList) ipW1, wlC7a)],
    workloads_by_uid := [(("u7").toList, wlC7a)] }

/-- C7: counterexample — insert then remove is not a round trip on every
store: when the inserted workload's uid is already stored under a different
record, the insert first evicts the old record (erasing its address
entries), and the remove then tears down the new one, so the old record's
address entry is lost rather than restored. -/
theorem insert_remove_roundtrip_cex :
    ((stC7.insert_workload wlC7b).remove_workload wlC7b.uid).1 ≠ stC7
    ∧ mlookup (network_addr (("net").toList) ipW1)
        ((stC7.insert_workload wlC7b).remove_workload wlC7b.uid).1.workloads = none
    ∧ mlookup (network_addr (("net").toList) ipW1) stC7.workloads = some wlC7a := by
  decide

/-- C7 (amended): when the inserted workload's uid is not yet in the UID
index and none of its network addresses is in the address index,
insert_workload followed by remove_workload of that uid restores the store
exactly and hands back the inserted record. -/
theorem insert_remove_roundtrip (s : WorkloadStore) (w : Workload)
    (hu : mlookup w.uid s.workloads_by_uid = none)
    (ha : ∀ ip ∈ w.workload_ips, mlookup (network_addr w.network ip) s.workloads = none) :
    (s.insert_workload w).remove_workload w.uid = (s, some w) := by
  have h1 : s.remove_workload w.uid = (s, none) := by
    rw [WorkloadStore.remove_workload, hu]
  have h2 : s.insert_workload w =
      { workloads := w.workload_ips.foldl
          (fun m ip => minsert (network_addr w.network ip) w m) s.workloads,
        workloads_by_uid := minsert w.uid w s.workloads_by_uid } := by
    rw [WorkloadStore.insert_workload, h1]
  have h3 : mlookup w.uid (s.insert_workload w).workloads_by_uid = some w := by
    rw [h2]
    exact mlookup_minsert_self _ _ _
  have h4 := remove_workload_some (s.insert_workload w) w.uid w h3
  have hby : merase w.uid (s.insert_workload w).workloads_by_uid = s.workloads_by_uid := by
    rw [h2]
    show merase w.uid (minsert w.uid w s.workloads_by_uid) = s.workloads_by_uid
    rw [minsert, merase_cons_self]
    exact merase_of_not_mem (mlookup_eq_none_iff.mp hu)
  have hws : w.workload_ips.foldl (fun m ip => merase (network_addr w.network ip) m)
      (s.insert_workload w).workloads = s.workloads := by
    rw [h2]
    exact foldl_merase_foldl_minsert_map (fun ip => network_addr w.network ip) w.workload_ips
      (fun ip hip => mlookup_eq_none_iff.mp (ha ip hip))
  rw [h4, hby, hws]

/-- Witness for the amended C7: inserting the fresh workload wlC7c into the
one-element store stC7 and removing its uid hands back exactly stC7 and the
inserted record. -/
theorem insert_remove_roundtrip_witness :
    (stC7.insert_workload wlC7c).remove_workload wlC7c.uid = (stC7, some wlC7c) :=
  insert_remove_roundtrip stC7 wlC7c (by decide) (by decide)

/-! ### Store invariants I1 and I2 under operation sequences -/

/-- One workload-store operation: an insert or a removal by UID. -/
inductive StoreOp where
  | ins (w : Workload)
  | rem (uid : Str)
deriving DecidableEq

/-- Run a sequence of store operations. -/
def applyOps : List StoreOp → WorkloadStore → WorkloadStore
  | [], s => s
  | StoreOp.ins w :: rest, s => applyOps rest (s.insert_workload w)
  | StoreOp.rem u :: rest, s => applyOps rest ((s.remove_workload u).1)

/-- The workloads inserted by a sequence of operations. -/
def opsWorkloads : List StoreOp → List Workload
  | [] => []
  | StoreOp.ins w :: rest => w :: opsWorkloads rest
  | StoreOp.rem _ :: rest => opsWorkloads rest

theorem opsWorkloads_append (a b : List StoreOp) :
    opsWorkloads (a ++ b) = opsWorkloads a ++ opsWorkloads b := by
  induction a with
  | nil => rfl
  | cons op rest ih =>
    cases op with
    | ins w =>
      simp only [List.cons_append, opsWorkloads, List.append_eq]
      rw [ih]
    | rem u =>
      simp only [List.cons_append, opsWorkloads, List.append_eq]
      rw [ih]

/-- Workloads of distinct UIDs never share a network address. -/
def AddrDisjoint (ws : List Workload) : Prop :=
  ∀ w1 ∈ ws, ∀ w2 ∈ ws, w1.uid ≠ w2.uid →
    ∀ ip1 ∈ w1.workload_ips, ∀ ip2 ∈ w2.workload_ips,
      network_addr w1.network ip1 ≠ network_addr w2.network ip2

instance (ws : List Workload) : Decidable (AddrDisjoint ws) := by
  unfold AddrDisjoint
  infer_instance

/-- Invariant I1 of the spec: every IP of a stored workload appears exactly
once as a key of the address index, mapped to that workload's record. -/
def StoreI1 (s : WorkloadStore) : Prop :=
  ∀ p ∈ s.workloads_by_uid, ∀ ip ∈ p.2.workload_ips,
    mlookup (network_addr p.2.network ip) s.workloads = some p.2
    ∧ (mkeys s.workloads).count (network_addr p.2.network ip) = 1

/-- Invariant I2 of the spec: the UID index is keyed by the records' UIDs,
and every record of the address index is in the UID index under its UID. -/
def StoreI2 (s : WorkloadStore) : Prop :=
  (∀ p ∈ s.workloads_by_uid, p.1 = p.2.uid)
  ∧ ∀ q ∈ s.workloads, mlookup q.2.uid s.workloads_by_uid = some q.2

instance (s : WorkloadStore) : Decidable (StoreI1 s) := by
  unfold StoreI1
  infer_instance

instance (s : WorkloadStore) : Decidable (StoreI2 s) := by
  unfold StoreI2
  infer_instance

/-- The inductive invariant: both indices have unique keys, the UID index is
keyed by UIDs and draws its records from the pool P, each stored workload's
addresses resolve to its record, and each address entry is registered in the
UID index and keyed by one of its record's addresses. -/
def StoreInv (P : List Workload) (s : WorkloadStore) : Prop :=
  NodupKeys s.workloads ∧ NodupKeys s.workloads_by_uid
  ∧ (∀ p ∈ s.workloads_by_uid, p.1 = p.2.uid ∧ p.2 ∈ P)
  ∧ (∀ p ∈ s.workloads_by_uid, ∀ ip ∈ p.2.workload_ips,
      mlookup (network_addr p.2.network ip) s.workloads = some p.2)
  ∧ (∀ q ∈ s.workloads, mlookup q.2.uid s.workloads_by_uid = some q.2
      ∧ ∃ ip ∈ q.2.workload_ips, q.1 = network_addr q.2.network ip)

theorem remove_workload_uid_none (s : WorkloadStore) (u : Str)
    (hnd : NodupKeys s.workloads_by_uid) :
    mlookup u ((s.remove_workload u).1).workloads_by_uid = none := by
  cases hl : mlookup u s.workloads_by_uid with
  | none =>
    have hr : (s.remove_workload u).1 = s := by
      rw [WorkloadStore.remove_workload, hl]
    rw [hr]
    exact hl
  | some prev =>
    have hr : (s.remove_workload u).1 =
        { workloads := prev.workload_ips.foldl
            (fun m ip => merase (network_addr prev.network ip) m) s.workloads,
          workloads_by_uid := merase u s.workloads_by_uid } := by
      rw [remove_workload_some s u prev hl]
    rw [hr]
    exact mlookup_merase_self u hnd

theorem insert_workload_eq (s : WorkloadStore) (w : Workload) :
    s.insert_workload w =
      { workloads := w.workload_ips.foldl
          (fun m ip => minsert (network_addr w.network ip) w m)
          ((s.remove_workload w.uid).1).workloads,
        workloads_by_uid := minsert w.uid w ((s.remove_workload w.uid).1).workloads_by_uid } :=
  rfl

theorem storeInv_empty (P : List Workload) : StoreInv P WorkloadStore.empty := by
  refine ⟨List.nodup_nil, List.nodup_nil, ?_, ?_, ?_⟩
  · intro p hp
    exact absurd hp (List.not_mem_nil p)
  · intro p hp
    exact absurd hp (List.not_mem_nil p)
  · intro q hq
    exact absurd hq (List.not_mem_nil q)

theorem storeInv_remove (P : List Workload) (hP : AddrDisjoint P) (s : WorkloadStore)
    (hs : StoreInv P s) (u : Str) : StoreInv P (s.remove_workload u).1 := by
  obtain ⟨h1, h2, h3, h4, h5⟩ := hs
  cases hl : mlookup u s.workloads_by_uid with
  | none =>
    have hr : (s.remove_workload u).1 = s := by
      rw [WorkloadStore.remove_workload, hl]
    rw [hr]
    exact ⟨h1, h2, h3, h4, h5⟩
  | some prev =>
    have hr : (s.remove_workload u).1 =
        { workloads := prev.workload_ips.foldl
            (fun m ip => merase (network_addr prev.network ip) m) s.workloads,
          workloads_by_uid := merase u s.workloads_by_uid } := by
      rw [remove_workload_some s u prev hl]
    have hconv : prev.workload_ips.foldl
        (fun m ip => merase (network_addr prev.network ip) m) s.workloads
        = (prev.workload_ips.map (fun ip => network_addr prev.network ip)).foldl
            (fun acc k => merase k acc) s.workloads :=
      (List.foldl_map (fun ip => network_addr prev.network ip) (fun acc k => merase k acc)
        prev.workload_ips s.workloads).symm
    have huprev : (u, prev) ∈ s.workloads_by_uid := mem_of_mlookup hl
    have huid : u = prev.uid := (h3 (u, prev) huprev).1
    have hprevP : prev ∈ P := (h3 (u, prev) huprev).2
    rw [hr]
    refine ⟨?_, ?_, ?_, ?_, ?_⟩
    · show NodupKeys (prev.workload_ips.foldl
        (fun m ip => merase (network_addr prev.network ip) m) s.workloads)
      rw [hconv]
      exact nodupKeys_foldl_merase h1
    · exact nodupKeys_of_merase u h2
    · intro p hp
      exact h3 p ((merase_sublist u s.workloads_by_uid).subset hp)
    · intro p hp ip hip
      have hpm := mem_merase_ne h2 hp
      have hnot : network_addr p.2.network ip
          ∉ prev.workload_ips.map (fun ip2 => network_addr prev.network ip2) := by
        intro hmem
        obtain ⟨ip2, hip2, heq⟩ := List.mem_map.mp hmem
        have hpP := (h3 p hpm.1).2
        have hune : p.2.uid ≠ prev.uid := by
          rw [← (h3 p hpm.1).1, ← huid]
          exact hpm.2
        exact hP p.2 hpP prev hprevP hune ip hip ip2 hip2 heq.symm
      show mlookup (network_addr p.2.network ip)
          (prev.workload_ips.foldl
            (fun m ip2 => merase (network_addr prev.network ip2) m) s.workloads) = some p.2
      rw [hconv, mlookup_foldl_merase_of_not_mem hnot]
      exact h4 p hpm.1 ip hip
    · intro q hq
      have hq1 : q ∈ prev.workload_ips.foldl
          (fun m ip => merase (network_addr prev.network ip) m) s.workloads := hq
      rw [hconv] at hq1
      have hqm := mem_of_mem_foldl_merase hq1
      have hbase := h5 q hqm
      have hquid : q.2.uid ≠ u := by
        intro hc
        have hb1 := hbase.1
        rw [hc, hl] at hb1
        have hqprev : q.2 = prev := (Option.some.inj hb1).symm
        obtain ⟨ip, hip, hq1eq⟩ := hbase.2
        have hip2 : ip ∈ prev.workload_ips := by
          rw [← hqprev]
          exact hip
        have hmemk : q.1 ∈ prev.workload_ips.map (fun ip2 => network_addr prev.network ip2) := by
          rw [hq1eq, hqprev]
          exact List.mem_map.mpr ⟨ip, hip2, rfl⟩
        have hnone := mlookup_foldl_merase_of_mem hmemk h1
        have hsome := mlookup_of_mem (nodupKeys_foldl_merase h1) hq1
        rw [hnone] at hsome
        exact Option.noConfusion hsome
      refine ⟨?_, hbase.2⟩
      show mlookup q.2.uid (merase u s.workloads_by_uid) = some q.2
      rw [mlookup_merase_ne hquid]
      exact hbase.1

theorem storeInv_insert (P : List Workload) (hP : AddrDisjoint P) (s : WorkloadStore)
    (hs : StoreInv P s) (w : Workload) (hw : w ∈ P) : StoreInv P (s.insert_workload w) := by
  have hs1 := storeInv_remove P hP s hs w.uid
  obtain ⟨h1, h2, h3, h4, h5⟩ := hs1
  have hnil : mlookup w.uid ((s.remove_workload w.uid).1).workloads_by_uid = none :=
    remove_workload_uid_none s w.uid hs.2.1
  have hconv : w.workload_ips.foldl
      (fun m ip => minsert (network_addr w.network ip) w m)
      ((s.remove_workload w.uid).1).workloads
      = (w.workload_ips.map (fun ip => network_addr w.network ip)).foldl
          (fun acc k => minsert k w acc) ((s.remove_workload w.uid).1).workloads :=
    (List.foldl_map (fun ip => network_addr w.network ip) (fun acc k => minsert k w acc)
      w.workload_ips ((s.remove_workload w.uid).1).workloads).symm
  rw [insert_workload_eq]
  refine ⟨?_, ?_, ?_, ?_, ?_⟩
  · show NodupKeys (w.workload_ips.foldl
      (fun m ip => minsert (network_addr w.network ip) w m)
      ((s.remove_workload w.uid).1).workloads)
    rw [hconv]
    exact nodupKeys_foldl_minsert h1
  · exact nodupKeys_of_minsert w.uid w h2
  · intro p hp
    have hp2 : p ∈ (w.uid, w) :: merase w.uid ((s.remove_workload w.uid).1).workloads_by_uid := hp
    rcases List.mem_cons.mp hp2 with rfl | h6
    · exact ⟨rfl, hw⟩
    · exact h3 p ((merase_sublist _ _).subset h6)
  · intro p hp ip hip
    have hp2 : p ∈ (w.uid, w) :: merase w.uid ((s.remove_workload w.uid).1).workloads_by_uid := hp
    show mlookup (network_addr p.2.network ip)
        (w.workload_ips.foldl (fun m ip2 => minsert (network_addr w.network ip2) w m)
          ((s.remove_workload w.uid).1).workloads) = some p.2
    rw [hconv]
    rcases List.mem_cons.mp hp2 with rfl | h6
    · exact mlookup_foldl_minsert_of_mem (List.mem_map.mpr ⟨ip, hip, rfl⟩)
    · have hpm := mem_merase_ne h2 h6
      have hnot : network_addr p.2.network ip
          ∉ w.workload_ips.map (fun ip2 => network_addr w.network ip2) := by
        intro hmem
        obtain ⟨ip2, hip2, heq2⟩ := List.mem_map.mp hmem
        have hpP := (h3 p hpm.1).2
        have hune : w.uid ≠ p.2.uid := by
          rw [← (h3 p hpm.1).1]
          exact fun hc => hpm.2 hc.symm
        exact hP w hw p.2 hpP hune ip2 hip2 ip hip heq2
      rw [mlookup_foldl_minsert_of_not_mem hnot]
      exact h4 p hpm.1 ip hip
  · intro q hq
    have hq1 : q ∈ w.workload_ips.foldl
        (fun m ip => minsert (network_addr w.network ip) w m)
        ((s.remove_workload w.uid).1).workloads := hq
    rw [hconv] at hq1
    rcases mem_foldl_minsert_cases hq1 with ⟨a, ha, rfl⟩ | h6
    · obtain ⟨ip, hip, rfl⟩ := List.mem_map.mp ha
      refine ⟨?_, ⟨ip, hip, rfl⟩⟩
      show mlookup w.uid (minsert w.uid w ((s.remove_workload w.uid).1).workloads_by_uid)
        = some w
      exact mlookup_minsert_self _ _ _
    · have hbase := h5 q h6
      have hquid : q.2.uid ≠ w.uid := by
        intro hc
        have hb1 := hbase.1
        rw [hc, hnil] at hb1
        exact Option.noConfusion hb1
      refine ⟨?_, hbase.2⟩
      show mlookup q.2.uid (minsert w.uid w ((s.remove_workload w.uid).1).workloads_by_uid)
        = some q.2
      rw [mlookup_minsert_ne _ hquid]
      exact hbase.1

theorem storeInv_applyOps (P : List Workload) (hP : AddrDisjoint P) :
    ∀ (ops : List StoreOp), (∀ w ∈ opsWorkloads ops, w ∈ P) →
      ∀ (s : WorkloadStore), StoreInv P s → StoreInv P (applyOps ops s) := by
  intro ops
  induction ops with
  | nil =>
    intro _ s hs
    exact hs
  | cons op rest ih =>
    intro hops s hs
    cases op with
    | ins w =>
      exact ih (fun x hx => hops x (List.mem_cons_of_mem _ hx)) (s.insert_workload w)
        (storeInv_insert P hP s hs w (hops w (List.mem_cons_self w (opsWorkloads rest))))
    | rem u =>
      exact ih (fun x hx => hops x hx) ((s.remove_workload u).1)
        (storeInv_remove P hP s hs u)

/-- Fixture: workload a6, one IP. -/
def wlC6a : Workload :=
  { wlBase with
    uid := ("a6").toList
    network := ("net").toList
    workload_ips := [ipW1] }

/-- Fixture: workload b6, distinct uid but the same IP as wlC6a. -/
def wlC6b : Workload :=
  { wlBase with
    uid := ("b6").toList
    network := ("net").toList
    workload_ips := [ipW1] }

/-- Fixture: workload c6 with an IP disjoint from wlC6a. -/
def wlC6c : Workload :=
  { wlBase with
    uid := ("c6").toList
    network := ("net").toList
    workload_ips := [ipWP] }

/-- C6: counterexample — invariant I1 does not survive overlapping IPs.
After inserting two distinct workloads that share an IP, the shared address
key maps only to the second record while the first is still stored, so I1
fails; removing the second workload then erases the shared key outright,
leaving the first stored workload with no address entry at all. -/
theorem workload_store_invariant_cex :
    StoreI1 (applyOps [StoreOp.ins wlC6a] WorkloadStore.empty)
    ∧ ¬ StoreI1 (applyOps [StoreOp.ins wlC6a, StoreOp.ins wlC6b] WorkloadStore.empty)
    ∧ mlookup (network_addr wlC6a.network ipW1)
        (applyOps [StoreOp.ins wlC6a, StoreOp.ins wlC6b] WorkloadStore.empty).workloads
        = some wlC6b
    ∧ mlookup wlC6a.uid
        (applyOps [StoreOp.ins wlC6a, StoreOp.ins wlC6b] WorkloadStore.empty).workloads_by_uid
        = some wlC6a
    ∧ mlookup (network_addr wlC6a.network ipW1)
        (applyOps [StoreOp.ins wlC6a, StoreOp.ins wlC6b, StoreOp.rem wlC6b.uid]
          WorkloadStore.empty).workloads = none
    ∧ mlookup wlC6a.uid
        (applyOps [StoreOp.ins wlC6a, StoreOp.ins wlC6b, StoreOp.rem wlC6b.uid]
          WorkloadStore.empty).workloads_by_uid = some wlC6a := by
  decide

/-- C6 (amended): for every sequence of insert_workload / remove_workload
operations run from the empty store in which workloads of distinct UIDs
never share a network address, invariants I1 (every stored workload's IPs
key the address index exactly once, mapped to its record) and I2 (the UID
index is keyed by UIDs and covers every address entry) hold after every
prefix of the sequence. -/
theorem workload_store_invariants (ops pre suf : List StoreOp) (hsplit : ops = pre ++ suf)
    (hdisj : AddrDisjoint (opsWorkloads ops)) :
    StoreI1 (applyOps pre WorkloadStore.empty) ∧ StoreI2 (applyOps pre WorkloadStore.empty) := by
  have hops : ∀ w ∈ opsWorkloads pre, w ∈ opsWorkloads ops := by
    intro w hw
    rw [hsplit, opsWorkloads_append]
    exact List.mem_append_left _ hw
  have hinv := storeInv_applyOps (opsWorkloads ops) hdisj pre hops WorkloadStore.empty
    (storeInv_empty (opsWorkloads ops))
  obtain ⟨h1, h2, h3, h4, h5⟩ := hinv
  constructor
  · intro p hp ip hip
    have hlk := h4 p hp ip hip
    refine ⟨hlk, ?_⟩
    have hkmem : network_addr p.2.network ip
        ∈ mkeys (applyOps pre WorkloadStore.empty).workloads := by
      by_contra hc
      rw [mlookup_eq_none_iff.mpr hc] at hlk
      exact Option.noConfusion hlk
    exact List.count_eq_one_of_mem h1 hkmem
  · exact ⟨fun p hp => (h3 p hp).1, fun q hq => (h5 q hq).1⟩

/-- Witness for the amended C6: a three-operation sequence with disjoint
addresses (insert a6, insert c6, remove a6) keeps I1 and I2 after its
two-insert prefix. -/
theorem workload_store_invariants_witness :
    AddrDisjoint (opsWorkloads
      [StoreOp.ins wlC6a, StoreOp.ins wlC6c, StoreOp.rem wlC6a.uid])
    ∧ (StoreI1 (applyOps [StoreOp.ins wlC6a, StoreOp.ins wlC6c] WorkloadStore.empty)
       ∧ StoreI2 (applyOps [StoreOp.ins wlC6a, StoreOp.ins wlC6c] WorkloadStore.empty)) :=
  ⟨by decide,
    workload_store_invariants
      [StoreOp.ins wlC6a, StoreOp.ins wlC6c, StoreOp.rem wlC6a.uid]
      [StoreOp.ins wlC6a, StoreOp.ins wlC6c] [StoreOp.rem wlC6a.uid] rfl (by decide)⟩

/-! ### Reductions of the upsert reducer -/

theorem updaterInsertWorkload_unhealthy (st : ProxyState) (w : XdsWorkload)
    (workload : Workload) (hconv : workloadTryFrom w = .ok workload)
    (hst : workload.status = HealthStatus.Unhealthy) :
    updaterInsertWorkload st w = .ok
      { workloads := (updaterRemove st w.uid).workloads.insert_workload workload,
        services := (updaterRemove st w.uid).services } := by
  rw [updaterInsertWorkload, hconv, except_bind_ok,
    if_neg (by rw [hst]; exact fun hc => HealthStatus.noConfusion hc)]
  rfl

theorem updaterInsertWorkload_healthy (st : ProxyState) (w : XdsWorkload)
    (workload : Workload) (hconv : workloadTryFrom w = .ok workload)
    (hst : workload.status = HealthStatus.Healthy) (eps : List Endpoint)
    (heps : service_endpoints workload w.virtual_ips = .ok eps) :
    updaterInsertWorkload st w = .ok
      { workloads := (updaterRemove st w.uid).workloads.insert_workload workload,
        services := eps.reverse.foldl (fun ss ep => ss.insert_endpoint ep)
          (updaterRemove st w.uid).services } := by
  rw [updaterInsertWorkload, hconv, except_bind_ok, if_pos hst, heps]
  rfl

/-- C5: an upsert whose converted workload is Unhealthy inserts no endpoints
(the resulting service store is exactly the post-removal one, so endpoints
previously derived for that UID are gone), yet the workload is written to
both workload indices and is found by address lookup; and an upsert whose
converted workload is Healthy re-derives its endpoints from its virtual IPs
through service_endpoints and inserts every one of them. -/
theorem unhealthy_upsert_routable (st : ProxyState) (w : XdsWorkload) (workload : Workload)
    (hconv : workloadTryFrom w = .ok workload) :
    (workload.status = HealthStatus.Unhealthy →
      updaterInsertWorkload st w = .ok
        { workloads := (updaterRemove st w.uid).workloads.insert_workload workload,
          services := (updaterRemove st w.uid).services })
    ∧ (workload.status = HealthStatus.Unhealthy →
      ∀ st2, updaterInsertWorkload st w = .ok st2 →
        mlookup workload.uid st2.workloads.workloads_by_uid = some workload
        ∧ (∀ ip ∈ workload.workload_ips,
            st2.workloads.find_workload (network_addr workload.network ip) = some workload)
        ∧ st2.services = (updaterRemove st w.uid).services)
    ∧ (workload.status = HealthStatus.Unhealthy → ∀ prev,
        mlookup w.uid st.workloads.workloads_by_uid = some prev →
        (∀ p ∈ st.services.by_host, NodupKeys p.2.endpoints) →
        (∀ p ∈ st.services.staged_vips, NodupKeys p.2) →
        ∀ st2, updaterInsertWorkload st w = .ok st2 →
          (∀ p ∈ st2.services.by_host, ∀ ip ∈ prev.workload_ips,
            mlookup (network_addr prev.network ip) p.2.endpoints = none)
          ∧ (∀ p ∈ st2.services.staged_vips, ∀ ip ∈ prev.workload_ips,
            mlookup (network_addr prev.network ip) p.2 = none))
    ∧ (workload.status = HealthStatus.Healthy → ∀ eps,
        service_endpoints workload w.virtual_ips = .ok eps →
        updaterInsertWorkload st w = .ok
          { workloads := (updaterRemove st w.uid).workloads.insert_workload workload,
            services := eps.reverse.foldl (fun ss ep => ss.insert_endpoint ep)
              (updaterRemove st w.uid).services }) := by
  refine ⟨?_, ?_, ?_, ?_⟩
  · intro hst
    exact updaterInsertWorkload_unhealthy st w workload hconv hst
  · intro hst st2 hok
    have hred := updaterInsertWorkload_unhealthy st w workload hconv hst
    have hst2 := Except.ok.inj (hok.symm.trans hred)
    subst hst2
    refine ⟨?_, ?_, rfl⟩
    · show mlookup workload.uid
        (((updaterRemove st w.uid).workloads.insert_workload workload).workloads_by_uid)
        = some workload
      rw [insert_workload_eq]
      exact mlookup_minsert_self _ _ _
    · intro ip hip
      show ((updaterRemove st w.uid).workloads.insert_workload workload).find_workload
        (network_addr workload.network ip) = some workload
      rw [WorkloadStore.find_workload, insert_workload_eq]
      show mlookup (network_addr workload.network ip)
        (workload.workload_ips.foldl
          (fun m ip2 => minsert (network_addr workload.network ip2) workload m)
          ((((updaterRemove st w.uid).workloads.remove_workload workload.uid).1).workloads))
        = some workload
      have hconv2 : workload.workload_ips.foldl
          (fun m ip2 => minsert (network_addr workload.network ip2) workload m)
          ((((updaterRemove st w.uid).workloads.remove_workload workload.uid).1).workloads)
          = (workload.workload_ips.map (fun ip2 => network_addr workload.network ip2)).foldl
              (fun acc k => minsert k workload acc)
              ((((updaterRemove st w.uid).workloads.remove_workload workload.uid).1).workloads) :=
        (List.foldl_map (fun ip2 => network_addr workload.network ip2)
          (fun acc k => minsert k workload acc) workload.workload_ips
          ((((updaterRemove st w.uid).workloads.remove_workload workload.uid).1).workloads)).symm
      rw [hconv2]
      exact mlookup_foldl_minsert_of_mem (List.mem_map.mpr ⟨ip, hip, rfl⟩)
  · intro hst prev hprev hndE hndS st2 hok
    have hred := updaterInsertWorkload_unhealthy st w workload hconv hst
    have hst2 := Except.ok.inj (hok.symm.trans hred)
    subst hst2
    have hrm : st.workloads.remove_workload w.uid =
        ({ workloads := prev.workload_ips.foldl
              (fun m ip => merase (network_addr prev.network ip) m) st.workloads.workloads,
           workloads_by_uid := merase w.uid st.workloads.workloads_by_uid }, some prev) := by
      rw [WorkloadStore.remove_workload, hprev]
    have hsrv := updaterRemove_some st w.uid _ prev hrm
    have hconvS : prev.workload_ips.foldl
        (fun ss ip => ss.remove_endpoint (network_addr prev.network ip)) st.services
        = (prev.workload_ips.map (fun ip => network_addr prev.network ip)).foldl
            (fun ss a => ss.remove_endpoint a) st.services :=
      (List.foldl_map (fun ip => network_addr prev.network ip)
        (fun ss a => ss.remove_endpoint a) prev.workload_ips st.services).symm
    constructor
    · intro p hp ip hip
      rw [hsrv] at hp
      rw [hconvS] at hp
      obtain ⟨q, hq, _, hend⟩ := removeEndpoint_fold_by_host_mem _ _ hp
      rw [hend]
      exact mlookup_foldl_merase_of_mem (List.mem_map.mpr ⟨ip, hip, rfl⟩) (hndE q hq)
    · intro p hp ip hip
      rw [hsrv] at hp
      rw [hconvS] at hp
      obtain ⟨q, hq, _, hpe⟩ := removeEndpoint_fold_staged_mem _ _ hp
      rw [hpe]
      exact mlookup_foldl_merase_of_mem (List.mem_map.mpr ⟨ip, hip, rfl⟩) (hndS q hq)
  · intro hst eps heps
    exact updaterInsertWorkload_healthy st w workload hconv hst eps heps

/-- Fixture: an XDS workload with uid u5, one address, marked Unhealthy. -/
def xdsC5u : XdsWorkload :=
  { xdsEmptyIdentity with
    uid := ("u5").toList
    network := ("net").toList
    addresses := [[10, 0, 0, 5]]
    status := 1 }

/-- Fixture: the same XDS workload marked Healthy again, with one VIP. -/
def xdsC5h : XdsWorkload :=
  { xdsC5u with
    status := 0
    virtual_ips := [(("net/10.0.0.10").toList, [(80, 8080)])] }

/-- Fixture: the converted Unhealthy record of xdsC5u. -/
def wlC5u : Workload :=
  { wlBase with
    workload_ips := [ipW1]
    uid := ("u5").toList
    ns := ("ns1").toList
    trust_domain := ("cluster.local").toList
    service_account := ("default").toList
    network := ("net").toList
    status := .Unhealthy
    cluster_id := ("Kubernetes").toList }

/-- Fixture: the converted Healthy record of xdsC5h. -/
def wlC5h : Workload := { wlC5u with status := .Healthy }

/-- Fixture: the record previously stored under uid u5. -/
def wlC5prev : Workload :=
  { wlBase with
    uid := ("u5").toList
    network := ("net").toList
    workload_ips := [ipW1] }

/-- Fixture: the pre-upsert state for C5 — wlC5prev is stored, and the
fixture service plus staging hold an endpoint at its address. -/
def stC5 : ProxyState :=
  { workloads :=
      { workloads := [(naC4, wlC5prev)], workloads_by_uid := [(("u5").toList, wlC5prev)] },
    services :=
      { by_host := [(nhC4, svcC4)],
        by_vip := [(vipC4, nhC4)],
        staged_vips := [(vipC4s, [(naC4, epC4)])] } }

/-- Fixture: the fixture service with its endpoints scrubbed. -/
def svcC4r : Service := { svcC4 with endpoints := [] }

/-- Witness for C5: on the concrete state stC5, the unhealthy upsert of u5
leaves the post-removal services untouched, keeps u5 findable by UID and by
address, the scrubbed service holds no endpoint at the old address, and the
healthy re-upsert re-derives and inserts the endpoint for its VIP. -/
theorem unhealthy_upsert_routable_witness :
    updaterInsertWorkload stC5 xdsC5u = .ok
      { workloads := (updaterRemove stC5 xdsC5u.uid).workloads.insert_workload wlC5u,
        services := (updaterRemove stC5 xdsC5u.uid).services }
    ∧ mlookup wlC5u.uid
        ((updaterRemove stC5 xdsC5u.uid).workloads.insert_workload wlC5u).workloads_by_uid
        = some wlC5u
    ∧ ((updaterRemove stC5 xdsC5u.uid).workloads.insert_workload wlC5u).find_workload
        (network_addr wlC5u.network ipW1) = some wlC5u
    ∧ mlookup naC4 svcC4r.endpoints = none
    ∧ updaterInsertWorkload stC5 xdsC5h = .ok
      { workloads := (updaterRemove stC5 xdsC5h.uid).workloads.insert_workload wlC5h,
        services := [epC4].reverse.foldl (fun ss ep => ss.insert_endpoint ep)
          (updaterRemove stC5 xdsC5h.uid).services } := by
  have h := unhealthy_upsert_routable stC5 xdsC5u wlC5u (by decide)
  have hh := unhealthy_upsert_routable stC5 xdsC5h wlC5h (by decide)
  have h2 := h.2.1 (by decide) _ (h.1 (by decide))
  have h3 := h.2.2.1 (by decide) wlC5prev (by decide) (by decide) (by decide) _
    (h.1 (by decide))
  refine ⟨h.1 (by decide), h2.1, h2.2.1 ipW1 (by decide), ?_, hh.2.2.2 (by decide) [epC4]
    (by decide)⟩
  exact h3.1 (nhC4, svcC4r) (by decide) ipW1 (by decide)

end Ztunnel
